import Mathlib

/-!
Verification development for the PFIS personal finance application.

The repository has two variants over one relational schema:
* `app/` — a SQLAlchemy CRUD application (`app/models.py`, `app/crud.py`,
  `app/db_init.py`, `app/routers/data_tools.py`);
* `finance_app/` — a dashboard-script variant over raw sqlite
  (`finance_app/modules/investment_log.py`, `finance_app/modules/cash_flow.py`,
  `finance_app/modules/master_data.py`, `finance_app/db_init.py`).

This file gives a shallow embedding of the data model and of the operations
the verified properties are about.  SQL `REAL`/Python `float` amounts are
modelled as rationals (`ℚ`); aggregation in the source is plain summation and
the verified properties are algebraic, not about rounding.  SQL `NULL` is
modelled as `Option.none`, rows of a table as a Lean list, and the
`AUTOINCREMENT` primary key as an explicit next-id counter where insertion
matters.  Dates are kept as their ISO `YYYY-MM-DD` storage strings, so that
SQLite's `strftime('%Y-%m', date)` is `String.take 7` and Python's string
ordering on month keys is code-point lexicographic order.
-/

namespace PFIS

/-! ## String helpers shared by both app variants -/

/-- ASCII lowercasing of one character.  SQLite's `lower()` lowercases only
ASCII; Python's `str.lower()` agrees with it on every keyword string the
application compares (the Chinese keywords contain no cased letters). -/
def asciiLowerChar (c : Char) : Char :=
  if 'A' ≤ c && c ≤ 'Z' then Char.ofNat (c.toNat + 32) else c

/-- ASCII lowercasing of a string, the behaviour of `lower()` on the
keyword sets used for classification. -/
def asciiLower (s : String) : String := ⟨s.data.map asciiLowerChar⟩

/-- Code-point lexicographic `≤` on character lists. -/
def lexLe : List Char → List Char → Bool
  | [], _ => true
  | _ :: _, [] => false
  | a :: as, b :: bs =>
    if a.toNat < b.toNat then true
    else if a.toNat = b.toNat then lexLe as bs
    else false

/-- Code-point lexicographic `≤` on strings: the order Python's `sorted`
uses on the `YYYY-MM` month keys. -/
def strLe (a b : String) : Bool := lexLe a.data b.data

theorem lexLe_total : ∀ as bs : List Char, lexLe as bs = true ∨ lexLe bs as = true := by
  intro as
  induction as with
  | nil => intro bs; left; rfl
  | cons a as ih =>
    intro bs
    cases bs with
    | nil => right; rfl
    | cons b bs =>
      by_cases hab : a.toNat < b.toNat
      · left; simp [lexLe, hab]
      · by_cases heq : a.toNat = b.toNat
        · rcases ih bs with h | h
          · left; simp [lexLe, heq, hab, h]
          · right; simp [lexLe, heq.symm, h]
        · right
          have hba : b.toNat < a.toNat := by omega
          simp [lexLe, hba]

theorem lexLe_trans : ∀ as bs cs : List Char,
    lexLe as bs = true → lexLe bs cs = true → lexLe as cs = true := by
  intro as
  induction as with
  | nil => intro bs cs _ _; rfl
  | cons a as ih =>
    intro bs cs h1 h2
    cases bs with
    | nil => simp [lexLe] at h1
    | cons b bs =>
      cases cs with
      | nil => simp [lexLe] at h2
      | cons c cs =>
        simp only [lexLe] at h1 h2 ⊢
        by_cases hab : a.toNat < b.toNat
        · by_cases hbc : b.toNat < c.toNat
          · have : a.toNat < c.toNat := by omega
            simp [this]
          · by_cases hbce : b.toNat = c.toNat
            · have : a.toNat < c.toNat := by omega
              simp [this]
            · simp [hbc, hbce] at h2
        · by_cases habe : a.toNat = b.toNat
          · by_cases hbc : b.toNat < c.toNat
            · have : a.toNat < c.toNat := by omega
              simp [this]
            · by_cases hbce : b.toNat = c.toNat
              · have hace : a.toNat = c.toNat := by omega
                have hac : ¬ a.toNat < c.toNat := by omega
                simp [hab, habe] at h1
                simp [hbc, hbce] at h2
                simp [hac, hace]
                exact ih bs cs h1 h2
              · simp [hbc, hbce] at h2
          · simp [hab, habe] at h1

instance : IsTotal String (fun a b => strLe a b = true) :=
  ⟨fun a b => lexLe_total a.data b.data⟩

instance : IsTrans String (fun a b => strLe a b = true) :=
  ⟨fun a b c => lexLe_trans a.data b.data c.data⟩

instance : DecidableRel (fun a b : String => strLe a b = true) :=
  fun _ _ => inferInstance

/-- Substring test on character lists (semantics of Python's `in` on strings
and of SQLite's `instr(hay, needle) > 0`). -/
def infixOfList (needle : List Char) : List Char → Bool
  | [] => needle.isEmpty
  | _hd :: rest => needle.isPrefixOf (_hd :: rest) || infixOfList needle rest

/-- `strContains hay needle`: does `needle` occur in `hay` as a substring. -/
def strContains (hay needle : String) : Bool := infixOfList needle.data hay.data

/-- `strftime('%Y-%m', date)` on an ISO `YYYY-MM-DD` date string. -/
def month_of_date (d : String) : String := d.take 7

/-! ## `app/` variant: data model (`app/models.py`)

Each record keeps the columns the verified operations read or write; ids are
`Nat` (SQLAlchemy integer primary keys), nullable columns are `Option`. -/

/-- A row of one of the dimension tables (`DimAccount`, `DimCategory`, ...):
integer id, display name, and the `StatusMixin` status column.  `status` is
`Option String` because legacy SQLite rows may hold `NULL`. -/
structure DimRow where
  id : Nat
  name : String
  status : Option String
deriving Repr, DecidableEq

/-- A `cash_flow` row (`app/models.py`, class `CashFlow`). -/
structure CashFlow where
  id : Nat
  date : String
  account_id : Nat
  category_id : Option Nat
  flow_type : String
  amount : ℚ
  source_type_id : Option Nat
  remark : Option String
  status : Option String
  link_investment_id : Option Nat
deriving Repr, DecidableEq

/-- An `investment_log` row (`app/models.py`, class `InvestmentLog`). -/
structure InvestmentLog where
  id : Nat
  date : String
  product_id : Nat
  action_id : Nat
  amount : ℚ
  channel_account_id : Option Nat
  remark : Option String
  status : Option String
  cashflow_link_id : Option Nat
deriving Repr, DecidableEq

/-- The slice of the `app/` database that the analytics and recording
operations under verification touch. -/
structure AppDB where
  cash_flows : List CashFlow
  investment_logs : List InvestmentLog
  action_types : List DimRow
deriving Repr, DecidableEq

/-! ## `app/crud.py`: classification sets and the active-status predicate -/

/-- `INCOME_TYPES` from `app/crud.py`. -/
def INCOME_TYPES : List String := ["收入", "income", "Income", "INCOME"]

/-- `EXPENSE_TYPES` from `app/crud.py`. -/
def EXPENSE_TYPES : List String := ["支出", "expense", "Expense", "EXPENSE"]

/-- `BUY_ACTION_TYPES` from `app/crud.py`. -/
def BUY_ACTION_TYPES : List String :=
  ["买入", "申购", "加仓", "购买", "buy", "Buy", "BUY", "purchase", "Purchase", "PURCHASE"]

/-- `BUY_ACTION_TYPES_LOWER = {name.lower() for name in BUY_ACTION_TYPES}`. -/
def BUY_ACTION_TYPES_LOWER : List String := (BUY_ACTION_TYPES.map asciiLower).dedup

/-- `_is_active(column)` from `app/crud.py`: status equals `'active'`, is
`NULL`, or is the empty string. -/
def is_active (status : Option String) : Bool :=
  match status with
  | none => true
  | some s => s == "active" || s == ""

/-! ## `app/crud.py`: analytics -/

/-- One of the two cash-flow sums of `analytics_summary`: total of `amount`
over rows whose `flow_type` is in the given set and whose status passes
`_is_active`. -/
def cashSumBy (flows : List CashFlow) (types : List String) : ℚ :=
  ((flows.filter (fun r => types.contains r.flow_type && is_active r.status)).map
    (fun r => r.amount)).sum

/-- Result record of `analytics_summary`. -/
structure Summary where
  total_income : ℚ
  total_expense : ℚ
  total_invested : ℚ
  net_cash : ℚ
deriving Repr, DecidableEq

/-- `analytics_summary(db)` from `app/crud.py`: income and expense sums over
active cash flows by flow-type set, the unconditional sum of active
investment-log amounts, and `net_cash = total_income - total_expense`. -/
def analytics_summary (db : AppDB) : Summary :=
  let ti := cashSumBy db.cash_flows INCOME_TYPES
  let te := cashSumBy db.cash_flows EXPENSE_TYPES
  let inv := ((db.investment_logs.filter (fun r => is_active r.status)).map
    (fun r => r.amount)).sum
  { total_income := ti, total_expense := te, total_invested := inv, net_cash := ti - te }

/-- Sort key of `list_cash_flows`: `ORDER BY date DESC, id DESC`. -/
def cashFlowOrd (a b : CashFlow) : Bool :=
  if a.date = b.date then Nat.ble b.id a.id else strLe b.date a.date

/-- `list_cash_flows(db, include_inactive)` from `app/crud.py`: rows ordered
by date and id descending; by default only rows with status exactly
`'active'`. -/
def list_cash_flows (db : AppDB) (include_inactive : Bool) : List CashFlow :=
  let sorted := db.cash_flows.insertionSort (fun a b => cashFlowOrd a b = true)
  if include_inactive then sorted
  else sorted.filter (fun r => r.status == some "active")

/-- `soft_delete_cashflow(db, record_id)` from `app/crud.py`: `None` when the
id is absent, otherwise the database with that row's status set to
`'inactive'`. -/
def soft_delete_cashflow (db : AppDB) (record_id : Nat) : Option AppDB :=
  if db.cash_flows.any (fun r => r.id == record_id) then
    some { db with
      cash_flows := db.cash_flows.map (fun r =>
        if r.id == record_id then { r with status := some "inactive" } else r) }
  else none

/-! ## `app/crud.py`: `monthly_cashflow` -/

/-- The action name joined for an investment row
(`.join(models.DimActionType, models.InvestmentLog.action)`); `none` when the
inner join drops the row. -/
def action_name_of (db : AppDB) (aid : Nat) : Option String :=
  (db.action_types.find? (fun a => a.id == aid)).map (fun a => a.name)

/-- The buy-action filter of the investment subquery:
`name IN BUY_ACTION_TYPES OR lower(name) IN BUY_ACTION_TYPES_LOWER`,
after the inner join on the action dimension. -/
def investRowBuy (db : AppDB) (r : InvestmentLog) : Bool :=
  match action_name_of db r.action_id with
  | some n => BUY_ACTION_TYPES.contains n || BUY_ACTION_TYPES_LOWER.contains (asciiLower n)
  | none => false

/-- Value of `income_map` at a month (0 when the month is not a key). -/
def incomeFor (db : AppDB) (m : String) : ℚ :=
  ((db.cash_flows.filter (fun r =>
      is_active r.status && INCOME_TYPES.contains r.flow_type &&
      month_of_date r.date == m)).map (fun r => r.amount)).sum

/-- Value of `expense_map` at a month (0 when the month is not a key). -/
def expenseFor (db : AppDB) (m : String) : ℚ :=
  ((db.cash_flows.filter (fun r =>
      is_active r.status && EXPENSE_TYPES.contains r.flow_type &&
      month_of_date r.date == m)).map (fun r => r.amount)).sum

/-- Value of `invest_map` at a month: the `CASE WHEN amount > 0 THEN amount
ELSE 0` sum over active buy-classified rows of that month. -/
def investFor (db : AppDB) (m : String) : ℚ :=
  ((db.investment_logs.filter (fun r =>
      is_active r.status && investRowBuy db r && month_of_date r.date == m)).map
    (fun r => if 0 < r.amount then r.amount else 0)).sum

/-- The months that are keys of `income_map` (GROUP BY keys: months owning at
least one active income row). -/
def incomeMonths (db : AppDB) : List String :=
  (db.cash_flows.filter (fun r =>
      is_active r.status && INCOME_TYPES.contains r.flow_type)).map
    (fun r => month_of_date r.date)

/-- The months that are keys of `expense_map`. -/
def expenseMonths (db : AppDB) : List String :=
  (db.cash_flows.filter (fun r =>
      is_active r.status && EXPENSE_TYPES.contains r.flow_type)).map
    (fun r => month_of_date r.date)

/-- The months that are keys of `invest_map` (a month qualifies as soon as an
active buy-classified row exists there, even with a non-positive amount). -/
def investMonths (db : AppDB) : List String :=
  (db.investment_logs.filter (fun r =>
      is_active r.status && investRowBuy db r)).map (fun r => month_of_date r.date)

/-- `all_months = sorted(set(income_map) | set(expense_map) | set(invest_map))`. -/
def allMonths (db : AppDB) : List String :=
  ((incomeMonths db ++ expenseMonths db ++ investMonths db).dedup).insertionSort
    (fun a b => strLe a b = true)

/-- One output record of `monthly_cashflow`.  `invest_share` is the source's
investment-to-income quotient field. -/
structure MonthEntry where
  month : String
  income : ℚ
  expense : ℚ
  investment : ℚ
  invest_share : ℚ
  net_cash : ℚ
  cumulative_net_cash : ℚ
deriving Repr, DecidableEq

/-- The month loop of `monthly_cashflow`, with the running net-cash
accumulator threaded exactly as the source's `running_net`. -/
def monthlyFrom (db : AppDB) (running : ℚ) : List String → List MonthEntry
  | [] => []
  | m :: ms =>
    let inc := incomeFor db m
    let expn := expenseFor db m
    let inv := investFor db m
    let share := if inc ≠ 0 then inv / inc else 0
    let net := inc - expn
    { month := m, income := inc, expense := expn, investment := inv,
      invest_share := share, net_cash := net,
      cumulative_net_cash := running + net } :: monthlyFrom db (running + net) ms

/-- `monthly_cashflow(db)` from `app/crud.py`. -/
def monthly_cashflow (db : AppDB) : List MonthEntry :=
  monthlyFrom db 0 (allMonths db)

/-! ## Generic summation helpers -/

theorem sum_filter_map_append {α : Type} (p : α → Bool) (f : α → ℚ) (l₁ l₂ : List α) :
    (((l₁ ++ l₂).filter p).map f).sum
      = ((l₁.filter p).map f).sum + ((l₂.filter p).map f).sum := by
  simp [List.filter_append]

theorem sum_filter_map_cons {α : Type} (p : α → Bool) (f : α → ℚ) (a : α) (l : List α) :
    (((a :: l).filter p).map f).sum
      = (if p a then f a else 0) + ((l.filter p).map f).sum := by
  by_cases h : p a <;> simp [List.filter_cons, h]

/-! ## Facts about `monthlyFrom` -/

theorem monthlyFrom_map_month (db : AppDB) (running : ℚ) (ms : List String) :
    (monthlyFrom db running ms).map (fun e => e.month) = ms := by
  induction ms generalizing running with
  | nil => rfl
  | cons m ms ih => simp [monthlyFrom, ih]

theorem monthlyFrom_get (db : AppDB) (running : ℚ) (ms : List String) :
    ∀ i : Fin (monthlyFrom db running ms).length,
      ((monthlyFrom db running ms).get i).income
          = incomeFor db ((monthlyFrom db running ms).get i).month
      ∧ ((monthlyFrom db running ms).get i).expense
          = expenseFor db ((monthlyFrom db running ms).get i).month
      ∧ ((monthlyFrom db running ms).get i).investment
          = investFor db ((monthlyFrom db running ms).get i).month
      ∧ ((monthlyFrom db running ms).get i).net_cash
          = ((monthlyFrom db running ms).get i).income
            - ((monthlyFrom db running ms).get i).expense
      ∧ ((monthlyFrom db running ms).get i).cumulative_net_cash
          = running
            + (((monthlyFrom db running ms).take (i.1 + 1)).map (fun e => e.net_cash)).sum := by
  induction ms generalizing running with
  | nil => intro i; exact absurd i.2 (by simp [monthlyFrom])
  | cons m ms ih =>
    intro i
    match i with
    | ⟨0, _⟩ => simp [monthlyFrom]
    | ⟨j + 1, hj⟩ =>
      have hj' : j < (monthlyFrom db (running + (incomeFor db m - expenseFor db m)) ms).length := by
        simpa [monthlyFrom] using hj
      have := ih (running + (incomeFor db m - expenseFor db m)) ⟨j, hj'⟩
      simp only [monthlyFrom, List.get_cons_succ, List.take_succ_cons, List.map_cons,
        List.sum_cons] at this ⊢
      refine ⟨this.1, this.2.1, this.2.2.1, this.2.2.2.1, ?_⟩
      rw [this.2.2.2.2]
      ring

theorem allMonths_nodup (db : AppDB) : (allMonths db).Nodup := by
  unfold allMonths
  exact (List.perm_insertionSort _ _).symm.nodup (List.nodup_dedup _)

theorem allMonths_sorted (db : AppDB) :
    List.Sorted (fun a b => strLe a b = true) (allMonths db) :=
  List.sorted_insertionSort _ _

theorem mem_allMonths (db : AppDB) (m : String) :
    m ∈ allMonths db ↔ m ∈ incomeMonths db ++ expenseMonths db ++ investMonths db := by
  unfold allMonths
  rw [(List.perm_insertionSort _ _).mem_iff, List.mem_dedup]

/-- C3.  `monthly_cashflow()` returns exactly one entry per month in the
union of months present in the income, expense, or qualifying-investment
series, the entries are sorted ascending by month, each entry's `net_cash`
equals income minus expense for that month, and each entry's
`cumulative_net_cash` equals the sum of `net_cash` over all months up to and
including that month. -/
theorem c3_monthly_cashflow_union_sorted_cumulative (db : AppDB) :
    ((monthly_cashflow db).map (fun e => e.month) = allMonths db)
  ∧ ((monthly_cashflow db).map (fun e => e.month)).Nodup
  ∧ List.Sorted (fun a b => strLe a b = true) ((monthly_cashflow db).map (fun e => e.month))
  ∧ (∀ m : String,
      m ∈ (monthly_cashflow db).map (fun e => e.month)
        ↔ m ∈ incomeMonths db ++ expenseMonths db ++ investMonths db)
  ∧ ∀ i : Fin (monthly_cashflow db).length,
      ((monthly_cashflow db).get i).income
          = incomeFor db ((monthly_cashflow db).get i).month
      ∧ ((monthly_cashflow db).get i).expense
          = expenseFor db ((monthly_cashflow db).get i).month
      ∧ ((monthly_cashflow db).get i).net_cash
          = ((monthly_cashflow db).get i).income - ((monthly_cashflow db).get i).expense
      ∧ ((monthly_cashflow db).get i).cumulative_net_cash
          = (((monthly_cashflow db).take (i.1 + 1)).map (fun e => e.net_cash)).sum := by
  have hmap : (monthly_cashflow db).map (fun e => e.month) = allMonths db :=
    monthlyFrom_map_month db 0 (allMonths db)
  refine ⟨hmap, hmap ▸ allMonths_nodup db, hmap ▸ allMonths_sorted db,
    fun m => hmap ▸ mem_allMonths db m, fun i => ?_⟩
  simp only [monthly_cashflow]
  have h := monthlyFrom_get db 0 (allMonths db) i
  exact ⟨h.1, h.2.1, h.2.2.2.1, by rw [h.2.2.2.2]; ring⟩

/-! ## Facts about the buy-action classification -/

/-- The `IN ... OR lower(...) IN ...` disjunction of the investment subquery
is exactly case-insensitive membership in `BUY_ACTION_TYPES`. -/
theorem buy_disjunction_eq_ci (n : String) :
    (BUY_ACTION_TYPES.contains n || BUY_ACTION_TYPES_LOWER.contains (asciiLower n))
      = (BUY_ACTION_TYPES.map asciiLower).contains (asciiLower n) := by
  rw [Bool.eq_iff_iff]
  simp only [Bool.or_eq_true, List.elem_iff, BUY_ACTION_TYPES_LOWER, List.mem_dedup]
  constructor
  · rintro (h | h)
    · exact List.mem_map_of_mem _ h
    · exact h
  · intro h; right; exact h

theorem sum_if_pos_eq_filter {α : Type} (p : α → Bool) (q : α → Prop) [DecidablePred q]
    (f : α → ℚ) (l : List α) :
    ((l.filter p).map (fun a => if q a then f a else 0)).sum
      = ((l.filter (fun a => p a && decide (q a))).map f).sum := by
  induction l with
  | nil => rfl
  | cons a l ih =>
    by_cases hp : p a
    · by_cases hq : q a <;> simp [List.filter_cons, hp, hq, ih]
    · simp [List.filter_cons, hp, ih]

/-- Adding one investment row changes `invest_map`'s value at a month by that
row's contribution: its (positively clamped) amount when active, buy-like and
in the month; nothing otherwise. -/
theorem investFor_cons (db : AppDB) (r : InvestmentLog) (m : String) :
    investFor { db with investment_logs := r :: db.investment_logs } m
      = (if is_active r.status && investRowBuy db r && (month_of_date r.date == m)
          then (if 0 < r.amount then r.amount else 0) else 0)
        + investFor db m := by
  have : investRowBuy { db with investment_logs := r :: db.investment_logs } = investRowBuy db := rfl
  simp only [investFor, this]
  exact sum_filter_map_cons _ _ r db.investment_logs

/-- C5.  In the monthly series of `monthly_cashflow()`, the investment value
of a month sums exactly the active rows whose joined action name is in the
buy keyword set under case-insensitive membership and whose amount is
positive; an active row with a non-buy action contributes nothing. -/
theorem c5_monthly_investment_only_buy_rows (db : AppDB) (m : String) (r : InvestmentLog) :
    (investFor db m
      = ((db.investment_logs.filter (fun l =>
            is_active l.status
            && (match action_name_of db l.action_id with
                | some n => (BUY_ACTION_TYPES.map asciiLower).contains (asciiLower n)
                | none => false)
            && (month_of_date l.date == m)
            && decide (0 < l.amount))).map (fun l => l.amount)).sum)
  ∧ (investRowBuy db r = false →
      investFor { db with investment_logs := r :: db.investment_logs } m = investFor db m) := by
  constructor
  · unfold investFor
    simp only [sum_if_pos_eq_filter]
    have hf : db.investment_logs.filter
          (fun a => is_active a.status && investRowBuy db a && (month_of_date a.date == m)
            && decide (0 < a.amount))
        = db.investment_logs.filter (fun l =>
            is_active l.status
            && (match action_name_of db l.action_id with
                | some n => (BUY_ACTION_TYPES.map asciiLower).contains (asciiLower n)
                | none => false)
            && (month_of_date l.date == m)
            && decide (0 < l.amount)) := by
      apply List.filter_congr
      intro l _
      cases h : action_name_of db l.action_id with
      | none => simp only [investRowBuy, h]
      | some n =>
        simp only [investRowBuy, h, ← buy_disjunction_eq_ci n]
    rw [hf]
  · intro hnb
    rw [investFor_cons, hnb]
    simp

/-- C10.  `analytics_summary`'s `total_invested` sums the amount of every
active (or NULL/empty status) investment row with no action filtering — any
active row, buy or not, raises `total_invested` by its amount — while the
monthly investment series ignores rows whose action is not buy-classified. -/
theorem c10_total_invested_ignores_action (db : AppDB) (r : InvestmentLog) (m : String) :
    ((analytics_summary db).total_invested
      = ((db.investment_logs.filter (fun l => is_active l.status)).map (fun l => l.amount)).sum)
  ∧ ((analytics_summary { db with investment_logs := r :: db.investment_logs }).total_invested
      = (if is_active r.status then r.amount else 0) + (analytics_summary db).total_invested)
  ∧ (investRowBuy db r = false →
      investFor { db with investment_logs := r :: db.investment_logs } m = investFor db m) := by
  refine ⟨rfl, ?_, ?_⟩
  · simp only [analytics_summary]
    exact sum_filter_map_cons _ _ r db.investment_logs
  · intro hnb
    rw [investFor_cons, hnb]
    simp

/-! ## Concrete fixtures used by witnesses and counterexamples -/

/-- Action dimension rows for the examples: a buy action, a redeem action and
an English `buy` action. -/
def exActionTypes : List DimRow :=
  [⟨1, "买入", some "active"⟩, ⟨2, "赎回", some "active"⟩, ⟨3, "buy", some "active"⟩]

/-- An active income cash flow of 5000 in 2024-01. -/
def exCashIncome : CashFlow :=
  ⟨1, "2024-01-15", 1, some 1, "收入", 5000, some 1, none, some "active", none⟩

/-- An active buy investment row of 1000 in 2024-01. -/
def exInvestBuy : InvestmentLog :=
  ⟨1, "2024-01-20", 1, 1, 1000, some 1, none, some "active", none⟩

/-- An active redeem (non-buy) investment row of 300 in 2024-01. -/
def exInvestRedeem : InvestmentLog :=
  ⟨2, "2024-01-22", 1, 2, 300, some 1, none, some "active", none⟩

/-- A small example database for the `app/` variant. -/
def exDb : AppDB := ⟨[exCashIncome], [exInvestBuy], exActionTypes⟩

theorem c5_monthly_investment_only_buy_rows_witness :
    investRowBuy exDb exInvestRedeem = false
    ∧ investFor { exDb with investment_logs := exInvestRedeem :: exDb.investment_logs } "2024-01"
        = investFor exDb "2024-01" :=
  ⟨by decide, (c5_monthly_investment_only_buy_rows exDb "2024-01" exInvestRedeem).2 (by decide)⟩

/-! ## Soft-delete frame lemmas (C4) -/

theorem map_soft_delete_split (r : CashFlow) (l₁ l₂ : List CashFlow)
    (h₁ : ∀ c ∈ l₁, c.id ≠ r.id) (h₂ : ∀ c ∈ l₂, c.id ≠ r.id) :
    (l₁ ++ r :: l₂).map
        (fun c => if c.id == r.id then { c with status := some "inactive" } else c)
      = l₁ ++ ({ r with status := some "inactive" } :: l₂) := by
  rw [List.map_append, List.map_cons]
  have e₁ : l₁.map (fun c => if c.id == r.id then { c with status := some "inactive" } else c)
      = l₁ := by
    rw [List.map_congr_left (g := id) ?_, List.map_id]
    intro c hc
    simp [h₁ c hc]
  have e₂ : l₂.map (fun c => if c.id == r.id then { c with status := some "inactive" } else c)
      = l₂ := by
    rw [List.map_congr_left (g := id) ?_, List.map_id]
    intro c hc
    simp [h₂ c hc]
  rw [e₁, e₂]
  simp

theorem sum_after_soft_delete (p : CashFlow → Bool) (f : CashFlow → ℚ) (r : CashFlow)
    (hp : ∀ c : CashFlow, p { c with status := some "inactive" } = false)
    (l₁ l₂ : List CashFlow)
    (h₁ : ∀ c ∈ l₁, c.id ≠ r.id) (h₂ : ∀ c ∈ l₂, c.id ≠ r.id) :
    ((((l₁ ++ r :: l₂).map
          (fun c => if c.id == r.id then { c with status := some "inactive" } else c)).filter
        p).map f).sum
      = (((l₁ ++ r :: l₂).filter p).map f).sum - (if p r then f r else 0) := by
  rw [map_soft_delete_split r l₁ l₂ h₁ h₂, sum_filter_map_append, sum_filter_map_append,
    sum_filter_map_cons, sum_filter_map_cons, hp r]
  by_cases hr : p r
  · simp [hr]
    ring
  · simp [hr]

/-- C4.  Soft-deleting a cash flow removes it from the default listing, and
`analytics_summary`/`monthly_cashflow` exclude inactive rows from their sums:
the summary after the soft delete differs from the one before by exactly the
row's signed contribution (its amount on `total_income` or `total_expense`
according to its flow type), all other totals unchanged, and the monthly
income/expense values lose exactly that row's contribution while the
investment series is untouched. -/
theorem c4_soft_delete_signed_contribution (db : AppDB) (r : CashFlow)
    (hmem : r ∈ db.cash_flows)
    (hnodup : (db.cash_flows.map (fun c => c.id)).Nodup) :
    ∃ db', soft_delete_cashflow db r.id = some db'
      ∧ (analytics_summary db').total_income
          = (analytics_summary db).total_income
            - (if INCOME_TYPES.contains r.flow_type && is_active r.status then r.amount else 0)
      ∧ (analytics_summary db').total_expense
          = (analytics_summary db).total_expense
            - (if EXPENSE_TYPES.contains r.flow_type && is_active r.status then r.amount else 0)
      ∧ (analytics_summary db').total_invested = (analytics_summary db).total_invested
      ∧ (analytics_summary db').net_cash
          = (analytics_summary db).net_cash
            - (if INCOME_TYPES.contains r.flow_type && is_active r.status then r.amount else 0)
            + (if EXPENSE_TYPES.contains r.flow_type && is_active r.status then r.amount else 0)
      ∧ (∀ c ∈ list_cash_flows db' false, c.id ≠ r.id)
      ∧ ∀ m : String,
          incomeFor db' m
            = incomeFor db m
              - (if is_active r.status && INCOME_TYPES.contains r.flow_type
                    && (month_of_date r.date == m) then r.amount else 0)
          ∧ expenseFor db' m
            = expenseFor db m
              - (if is_active r.status && EXPENSE_TYPES.contains r.flow_type
                    && (month_of_date r.date == m) then r.amount else 0)
          ∧ investFor db' m = investFor db m := by
  obtain ⟨l₁, l₂, hsplit⟩ := List.mem_iff_append.mp hmem
  have hn2 : (l₁.map (fun c => c.id) ++ (r.id :: l₂.map (fun c => c.id))).Nodup := by
    have := hnodup
    rw [hsplit] at this
    simpa using this
  obtain ⟨-, hcons, hdisj⟩ := List.nodup_append.mp hn2
  have h₁ : ∀ c ∈ l₁, c.id ≠ r.id := by
    intro c hc heq
    exact hdisj (List.mem_map_of_mem _ hc) (by simp [heq])
  have h₂ : ∀ c ∈ l₂, c.id ≠ r.id := by
    intro c hc heq
    have hr2 : r.id ∉ l₂.map (fun c => c.id) := (List.nodup_cons.mp hcons).1
    exact hr2 (heq ▸ List.mem_map_of_mem _ hc)
  have hany : db.cash_flows.any (fun c => c.id == r.id) = true :=
    List.any_eq_true.mpr ⟨r, hmem, by simp⟩
  have hpi : ∀ c : CashFlow,
      (INCOME_TYPES.contains ({ c with status := some "inactive" } : CashFlow).flow_type
        && is_active ({ c with status := some "inactive" } : CashFlow).status) = false := by
    intro c; simp [is_active]
  have hpe : ∀ c : CashFlow,
      (EXPENSE_TYPES.contains ({ c with status := some "inactive" } : CashFlow).flow_type
        && is_active ({ c with status := some "inactive" } : CashFlow).status) = false := by
    intro c; simp [is_active]
  refine ⟨{ db with cash_flows := List.map (fun c => if c.id == r.id then { c with status := some "inactive" } else c) db.cash_flows }, ?_, ?_, ?_, rfl, ?_, ?_, ?_⟩
  · unfold soft_delete_cashflow
    rw [if_pos hany]
  · unfold analytics_summary cashSumBy
    simp only []
    rw [hsplit]
    exact sum_after_soft_delete
      (fun c => INCOME_TYPES.contains c.flow_type && is_active c.status)
      (fun c => c.amount) r (fun c => hpi c) l₁ l₂ h₁ h₂
  · unfold analytics_summary cashSumBy
    simp only []
    rw [hsplit]
    exact sum_after_soft_delete
      (fun c => EXPENSE_TYPES.contains c.flow_type && is_active c.status)
      (fun c => c.amount) r (fun c => hpe c) l₁ l₂ h₁ h₂
  · unfold analytics_summary cashSumBy
    simp only []
    rw [hsplit]
    rw [sum_after_soft_delete
        (fun c => INCOME_TYPES.contains c.flow_type && is_active c.status)
        (fun c => c.amount) r (fun c => hpi c) l₁ l₂ h₁ h₂,
      sum_after_soft_delete
        (fun c => EXPENSE_TYPES.contains c.flow_type && is_active c.status)
        (fun c => c.amount) r (fun c => hpe c) l₁ l₂ h₁ h₂]
    ring
  · intro c hc
    simp only [list_cash_flows, if_neg (by simp : ¬ (false = true))] at hc
    obtain ⟨hcs, hstat⟩ := List.mem_filter.mp hc
    have hcmem : c ∈ (db.cash_flows.map
        (fun c => if c.id == r.id then { c with status := some "inactive" } else c)) :=
      (List.perm_insertionSort _ _).subset hcs
    obtain ⟨x, _, hx⟩ := List.mem_map.mp hcmem
    by_cases hxid : x.id == r.id
    · rw [if_pos hxid] at hx
      rw [← hx] at hstat
      simp at hstat
    · rw [if_neg hxid] at hx
      intro hcid
      rw [← hx] at hcid
      exact absurd hcid (by simpa using hxid)
  · intro m
    refine ⟨?_, ?_, rfl⟩
    · unfold incomeFor
      simp only []
      rw [hsplit]
      exact sum_after_soft_delete
        (fun c => is_active c.status && INCOME_TYPES.contains c.flow_type
          && (month_of_date c.date == m))
        (fun c => c.amount) r (fun c => by simp [is_active]) l₁ l₂ h₁ h₂
    · unfold expenseFor
      simp only []
      rw [hsplit]
      exact sum_after_soft_delete
        (fun c => is_active c.status && EXPENSE_TYPES.contains c.flow_type
          && (month_of_date c.date == m))
        (fun c => c.amount) r (fun c => by simp [is_active]) l₁ l₂ h₁ h₂

theorem c4_soft_delete_signed_contribution_witness :
    (exCashIncome ∈ exDb.cash_flows)
    ∧ (exDb.cash_flows.map (fun c => c.id)).Nodup
    ∧ ∃ db', soft_delete_cashflow exDb exCashIncome.id = some db'
        ∧ (analytics_summary db').total_income
            = (analytics_summary exDb).total_income - 5000 := by
  have hmem : exCashIncome ∈ exDb.cash_flows := List.mem_singleton.mpr rfl
  obtain ⟨db', hdel, hti, -⟩ :=
    c4_soft_delete_signed_contribution exDb exCashIncome hmem (by decide)
  refine ⟨hmem, by decide, db', hdel, ?_⟩
  rw [hti]
  norm_num [exCashIncome, INCOME_TYPES, is_active]

theorem c10_total_invested_ignores_action_witness :
    investRowBuy exDb exInvestRedeem = false
    ∧ investFor { exDb with investment_logs := exInvestRedeem :: exDb.investment_logs } "2024-01"
        = investFor exDb "2024-01" :=
  ⟨by decide,
    (c10_total_invested_ignores_action exDb exInvestRedeem "2024-01").2.2 (by decide)⟩

/-! ## `list_master_data` (C8)

The dictionary built by `list_master_data` has one entry per table of
`MASTER_OVERVIEW`; the loop body is uniform, so it is embedded once as
`listTable` and applied to all eight tables. -/

/-- The eight dimension tables of `MASTER_OVERVIEW`, in source order. -/
structure MasterDB where
  accounts : List DimRow
  categories : List DimRow
  source_types : List DimRow
  action_types : List DimRow
  product_types : List DimRow
  risk_levels : List DimRow
  metrics : List DimRow
  investment_terms : List DimRow
deriving Repr, DecidableEq

/-- Loop body of `list_master_data` for one table: `ORDER BY name`, and —
unless `include_inactive` — `WHERE status == 'active'`.  (Every dimension
model carries the `StatusMixin` column, so the `hasattr(model, "status")`
guard is always taken.) -/
instance : IsTotal DimRow (fun a b => strLe a.name b.name = true) :=
  ⟨fun a b => lexLe_total a.name.data b.name.data⟩

instance : IsTrans DimRow (fun a b => strLe a.name b.name = true) :=
  ⟨fun a b c => lexLe_trans a.name.data b.name.data c.name.data⟩

instance : DecidableRel (fun a b : DimRow => strLe a.name b.name = true) :=
  fun _ _ => inferInstance

def listTable (rows : List DimRow) (include_inactive : Bool) : List DimRow :=
  let sorted := rows.insertionSort (fun a b => strLe a.name b.name = true)
  if include_inactive then sorted
  else sorted.filter (fun r => r.status == some "active")

/-- `list_master_data(db, include_inactive)` from `app/crud.py`: the loop
over `MASTER_OVERVIEW` applies the same query shape to each table. -/
def list_master_data (db : MasterDB) (include_inactive : Bool) : MasterDB :=
  { accounts := listTable db.accounts include_inactive
    categories := listTable db.categories include_inactive
    source_types := listTable db.source_types include_inactive
    action_types := listTable db.action_types include_inactive
    product_types := listTable db.product_types include_inactive
    risk_levels := listTable db.risk_levels include_inactive
    metrics := listTable db.metrics include_inactive
    investment_terms := listTable db.investment_terms include_inactive }

/-- C8 counterexample.  A legacy row whose status is the empty string (or
NULL) is *excluded* from the default listing even though `_is_active`
classifies it as active: the claim's "treated as active and therefore
included" fails on `list_master_data`'s strict `status == 'active'`
filter. -/
theorem c8_counterexample_empty_status_excluded :
    is_active (some "") = true
    ∧ is_active none = true
    ∧ listTable [⟨1, "A", some ""⟩, ⟨2, "B", none⟩] false = []
    ∧ listTable [⟨1, "A", some ""⟩, ⟨2, "B", none⟩] true
        = [⟨1, "A", some ""⟩, ⟨2, "B", none⟩] := by
  refine ⟨rfl, rfl, by decide, by decide⟩

/-- C8 (amended).  `list_master_data` with `include_inactive = False`
returns, for every dimension table, the rows ordered by name, keeping
exactly the rows whose status is the literal `'active'`; rows with NULL or
empty status are excluded from the default listing (they satisfy the
analytics predicate `_is_active` but not this filter) and reappear with
`include_inactive = True`. -/
theorem c8_list_master_data_strict_active_filter (rows : List DimRow) (b : Bool)
    (db : MasterDB) :
    List.Sorted (fun a c : DimRow => strLe a.name c.name = true) (listTable rows b)
  ∧ (∀ r : DimRow, r ∈ listTable rows false ↔ r ∈ rows ∧ r.status = some "active")
  ∧ (∀ r : DimRow, r ∈ listTable rows true ↔ r ∈ rows)
  ∧ (list_master_data db b).accounts = listTable db.accounts b
  ∧ (list_master_data db b).categories = listTable db.categories b
  ∧ (list_master_data db b).source_types = listTable db.source_types b
  ∧ (list_master_data db b).action_types = listTable db.action_types b
  ∧ (list_master_data db b).product_types = listTable db.product_types b
  ∧ (list_master_data db b).risk_levels = listTable db.risk_levels b
  ∧ (list_master_data db b).metrics = listTable db.metrics b
  ∧ (list_master_data db b).investment_terms = listTable db.investment_terms b := by
  have hperm := List.perm_insertionSort
    (fun a c : DimRow => strLe a.name c.name = true) rows
  have hsorted : List.Sorted (fun a c : DimRow => strLe a.name c.name = true)
      (rows.insertionSort (fun a c => strLe a.name c.name = true)) := by
    apply List.sorted_insertionSort (fun a c : DimRow => strLe a.name c.name = true)
      (l := rows)
  refine ⟨?_, ?_, ?_, rfl, rfl, rfl, rfl, rfl, rfl, rfl, rfl⟩
  · unfold listTable
    cases b with
    | true => simpa using hsorted
    | false =>
      simp only [if_neg (by simp : ¬ (false = true))]
      exact hsorted.filter _
  · intro r
    unfold listTable
    simp only [if_neg (by simp : ¬ (false = true))]
    rw [List.mem_filter, hperm.mem_iff]
    simp
  · intro r
    unfold listTable
    simp only [if_pos rfl]
    exact hperm.mem_iff

/-! ## `MASTER_TABLES` and the missing `DimInvestmentTerm` model (C9) -/

/-- The module-level class names defined in `app/models.py` (lines 1–194):
`DimInvestmentTerm` is not among them, although `app/crud.py`,
`app/db_init.py` and `app/routers/data_tools.py` all reference
`models.DimInvestmentTerm`, and `app/migrations.py` adds the
`product_master.investment_term_id` column it would be the target of. -/
def modelsClassNames : List String :=
  ["StatusMixin", "DimAccount", "DimCategory", "DimSourceType", "DimActionType",
   "DimProductType", "DimRiskLevel", "DimMetric", "CashFlow", "ProductMaster",
   "InvestmentLog", "ProductMetric", "HoldingStatus", "OcrPending"]

/-- The `MASTER_TABLES` mapping of `app/crud.py`: each recognized table name
with the `models` attribute its value is looked up as. -/
def MASTER_TABLES : List (String × String) :=
  [("dim_account", "DimAccount"), ("dim_category", "DimCategory"),
   ("dim_source_type", "DimSourceType"), ("dim_action_type", "DimActionType"),
   ("dim_product_type", "DimProductType"), ("dim_risk_level", "DimRiskLevel"),
   ("dim_metric", "DimMetric"), ("dim_investment_term", "DimInvestmentTerm")]

/-- Resolution of a recognized master table to its model class: `some` when
the attribute exists on the `models` module, `none` when evaluating the
attribute raises `AttributeError` (which in the source happens while the
`MASTER_TABLES` dict itself is being built, at import of `app.crud`). -/
def resolveMasterModel (table : String) : Option String :=
  match (MASTER_TABLES.find? (fun e => e.1 == table)).map (fun e => e.2) with
  | some cls => if modelsClassNames.contains cls then some cls else none
  | none => none

/-- C9.  `dim_investment_term` is one of the eight recognized master tables
and is mapped to the attribute `models.DimInvestmentTerm`, but no class of
that name is defined in `app/models.py`; every other recognized table
resolves.  Hence `create_master_data("dim_investment_term", ...)` cannot
insert a row with `status='active'` as the claim (and the spec's declared
`InvestmentTerm` dimension entity) requires — the attribute lookup fails
instead. -/
theorem c9_dim_investment_term_model_missing :
    MASTER_TABLES.map (fun e => e.1)
      = ["dim_account", "dim_category", "dim_source_type", "dim_action_type",
         "dim_product_type", "dim_risk_level", "dim_metric", "dim_investment_term"]
    ∧ (MASTER_TABLES.find? (fun e => e.1 == "dim_investment_term")).map (fun e => e.2)
        = some "DimInvestmentTerm"
    ∧ modelsClassNames.contains "DimInvestmentTerm" = false
    ∧ resolveMasterModel "dim_investment_term" = none
    ∧ ∀ p ∈ MASTER_TABLES, p.1 = "dim_investment_term" ∨ resolveMasterModel p.1 = some p.2 := by
  decide

/-! ## Bulk import link deferral (`app/routers/data_tools.py`, C7)

The import loop is modelled per record on the fields its link-deferral logic
inspects; all remaining columns of a record travel opaquely in `payload`.
Deferred updates are keyed per model, so applying each sheet's deferred
updates to that sheet's rows is the same as the source's single pass over
`deferred_relationships` after all sheets. -/

/-- The `link_column` selection of the import loop (lines 269–273): only the
`cash_flow` and `investment_log` sheets have a deferred link column; every
other sheet — `dim_category` with its self-referential `parent_id`
included — has none. -/
def linkColumnFor (sheet : String) : Option String :=
  if sheet == "cash_flow" then some "link_investment_id"
  else if sheet == "investment_log" then some "cashflow_link_id"
  else none

/-- A cleaned record of one sheet, and equally a stored row: primary-key
value, the value of the row's link/self-reference column
(`link_investment_id`, `cashflow_link_id`, or `dim_category.parent_id`), and
the remaining columns, opaque. -/
structure LinkedRow where
  pk : Nat
  link : Option Nat
  payload : String
deriving Repr, DecidableEq

/-- First-pass handling of one record in replace mode: when the sheet has a
link column, its value is popped before the instance is constructed — the
inserted row's link column is NULL and a `(pk, value)` update is queued when
the value is non-NULL; otherwise the record is inserted as read, link column
(e.g. `parent_id`) written immediately. -/
def firstPassInsert (sheet : String) (record : LinkedRow) :
    LinkedRow × Option (Nat × Nat) :=
  match linkColumnFor sheet with
  | some _ =>
    ({ record with link := none },
      match record.link with
      | some v => some (record.pk, v)
      | none => none)
  | none => (record, none)

/-- The first pass of `import_data` over one sheet in replace mode (the
table was emptied beforehand): inserted rows in sheet order together with
the queued deferred updates, in order. -/
def importSheetReplace (sheet : String) : List LinkedRow → List LinkedRow × List (Nat × Nat)
  | [] => ([], [])
  | record :: rest =>
    let step := firstPassInsert sheet record
    let acc := importSheetReplace sheet rest
    (step.1 :: acc.1,
      match step.2 with
      | some d => d :: acc.2
      | none => acc.2)

/-- The second pass: each deferred `(pk, value)` update writes the link
column of the row with that primary key. -/
def applyDeferred (rows : List LinkedRow) : List (Nat × Nat) → List LinkedRow
  | [] => rows
  | u :: us =>
    applyDeferred
      (rows.map (fun r => if r.pk == u.1 then { r with link := some u.2 } else r)) us

/-- Full import of one sheet in replace mode: first pass, then the sheet's
deferred link updates. -/
def import_sheet (sheet : String) (records : List LinkedRow) : List LinkedRow :=
  let fp := importSheetReplace sheet records
  applyDeferred fp.1 fp.2

/-- The deferred updates queued for a sheet with a link column. -/
def pairsOf (records : List LinkedRow) : List (Nat × Nat) :=
  records.filterMap (fun r => r.link.map (fun v => (r.pk, v)))

theorem importSheetReplace_with_link (sheet : String)
    (hs : (linkColumnFor sheet).isSome = true) (records : List LinkedRow) :
    importSheetReplace sheet records
      = (records.map (fun r => { r with link := none }), pairsOf records) := by
  obtain ⟨c, hc⟩ := Option.isSome_iff_exists.mp hs
  induction records with
  | nil => rfl
  | cons r rest ih =>
    simp only [importSheetReplace, firstPassInsert, hc, ih, pairsOf, List.filterMap_cons,
      List.map_cons]
    cases r.link <;> rfl

theorem importSheetReplace_no_link (sheet : String)
    (hs : linkColumnFor sheet = none) (records : List LinkedRow) :
    importSheetReplace sheet records = (records, []) := by
  induction records with
  | nil => rfl
  | cons r rest ih =>
    simp only [importSheetReplace, firstPassInsert, hs, ih]

/-- Semantics of one deferred lookup against a row. -/
def lookupUpd (us : List (Nat × Nat)) (r : LinkedRow) : LinkedRow :=
  match us.find? (fun u => u.1 == r.pk) with
  | some u => { r with link := some u.2 }
  | none => r

theorem applyDeferred_eq_map (us : List (Nat × Nat))
    (hnodup : (us.map Prod.fst).Nodup) :
    ∀ rows : List LinkedRow, applyDeferred rows us = rows.map (lookupUpd us) := by
  induction us with
  | nil =>
    intro rows
    show rows = List.map (lookupUpd []) rows
    rw [show lookupUpd [] = id from funext (fun r => rfl), List.map_id]
  | cons u us ih =>
    intro rows
    have hn : (us.map Prod.fst).Nodup := (List.nodup_cons.mp hnodup).2
    have hu : u.1 ∉ us.map Prod.fst := (List.nodup_cons.mp hnodup).1
    rw [applyDeferred, ih hn, List.map_map]
    apply List.map_congr_left
    intro r _
    by_cases hpk : r.pk = u.1
    · have hb : (r.pk == u.1) = true := by simp [hpk]
      have hb2 : (u.1 == r.pk) = true := by simp [hpk]
      have hfind : us.find? (fun v => v.1 == r.pk) = none := by
        apply List.find?_eq_none.mpr
        intro x hx
        simp only [beq_iff_eq]
        intro hxe
        exact hu (by rw [← hpk, ← hxe]; exact List.mem_map_of_mem _ hx)
      simp [Function.comp, lookupUpd, hb, hb2, List.find?_cons, hfind]
    · have hb : (r.pk == u.1) = false := by
        simp only [beq_eq_false_iff_ne, ne_eq]
        exact hpk
      have hb' : (u.1 == r.pk) = false := by
        simp only [beq_eq_false_iff_ne, ne_eq]
        intro h
        exact hpk h.symm
      simp [Function.comp, lookupUpd, hb, List.find?_cons, hb']

theorem pairsOf_fsts_sublist (records : List LinkedRow) :
    List.Sublist ((pairsOf records).map Prod.fst) (records.map (fun r => r.pk)) := by
  induction records with
  | nil => simp [pairsOf]
  | cons r rest ih =>
    cases hl : r.link with
    | none =>
      simp only [pairsOf, List.filterMap_cons, hl, List.map_cons]
      exact ih.cons _
    | some v =>
      simp only [pairsOf, List.filterMap_cons, hl, Option.map_some', List.map_cons]
      exact ih.cons₂ _

theorem find_pairsOf (records : List LinkedRow)
    (hnodup : (records.map (fun r => r.pk)).Nodup) :
    ∀ r ∈ records,
      (pairsOf records).find? (fun u => u.1 == r.pk) = r.link.map (fun v => (r.pk, v)) := by
  induction records with
  | nil => intro r h; cases h
  | cons r0 rest ih =>
    intro r hr
    have hn0 : r0.pk ∉ rest.map (fun x => x.pk) := (List.nodup_cons.mp (by simpa using hnodup)).1
    have hnr : (rest.map (fun x => x.pk)).Nodup := (List.nodup_cons.mp (by simpa using hnodup)).2
    rcases List.mem_cons.mp hr with rfl | hr'
    · cases hl : r.link with
      | some v =>
        simp [pairsOf, List.filterMap_cons, hl, Option.map_some', List.find?_cons]
      | none =>
        simp only [pairsOf, List.filterMap_cons, hl, Option.map_none']
        apply List.find?_eq_none.mpr
        intro x hx
        simp only [beq_iff_eq]
        intro hxe
        have hx1 : x.1 ∈ (pairsOf rest).map Prod.fst := List.mem_map_of_mem _ hx
        have hsub : x.1 ∈ rest.map (fun r => r.pk) :=
          (pairsOf_fsts_sublist rest).subset hx1
        exact hn0 (hxe ▸ hsub)
    · have hne : (r0.pk == r.pk) = false := by
        simp only [beq_eq_false_iff_ne, ne_eq]
        intro h
        exact hn0 (h ▸ List.mem_map_of_mem _ hr')
      cases hl0 : r0.link with
      | none =>
        simp only [pairsOf, List.filterMap_cons, hl0]
        exact ih hnr r hr'
      | some v =>
        simp only [pairsOf, List.filterMap_cons, hl0, Option.map_some']
        rw [List.find?_cons_of_neg _ (by simp [hne])]
        exact ih hnr r hr'

/-- C7 counterexample.  The `dim_category` sheet has no deferred link column:
a category record with `parent_id = 1` is inserted in the first pass with
its parent already written and no second-pass update is queued — the
`parent_id` column is not deferred, unlike `cash_flow.link_investment_id`. -/
theorem c7_counterexample_category_parent_not_deferred :
    linkColumnFor "dim_category" = none
    ∧ firstPassInsert "dim_category" ⟨2, some 1, "child"⟩ = (⟨2, some 1, "child"⟩, none)
    ∧ (importSheetReplace "dim_category" [⟨2, some 1, "child"⟩]).1 = [⟨2, some 1, "child"⟩]
    ∧ (importSheetReplace "dim_category" [⟨2, some 1, "child"⟩]).2 = []
    ∧ firstPassInsert "cash_flow" ⟨7, some 3, "x"⟩ = (⟨7, none, "x"⟩, some (7, 3)) := by
  decide

/-- C7 (amended).  During bulk import only the CashFlow↔InvestmentLog link
columns are deferred: for the `cash_flow` and `investment_log` sheets the
first pass inserts every row with a NULL link column and the second pass
restores exactly the imported link values, so the final rows equal the
imported records; the Category `parent_id` is not deferred — sheets without
a link column are written completely in the first pass with no queued
update. -/
theorem c7_only_cashflow_links_deferred (records : List LinkedRow)
    (hnodup : (records.map (fun r => r.pk)).Nodup) (sheet : String) :
    (linkColumnFor "cash_flow" = some "link_investment_id"
      ∧ linkColumnFor "investment_log" = some "cashflow_link_id"
      ∧ linkColumnFor "dim_category" = none)
  ∧ ((linkColumnFor sheet).isSome = true →
      (importSheetReplace sheet records).1 = records.map (fun r => { r with link := none })
      ∧ import_sheet sheet records = records)
  ∧ (linkColumnFor sheet = none →
      (importSheetReplace sheet records).2 = []
      ∧ import_sheet sheet records = records) := by
  refine ⟨⟨rfl, rfl, rfl⟩, ?_, ?_⟩
  · intro hs
    have hfp := importSheetReplace_with_link sheet hs records
    refine ⟨by rw [hfp], ?_⟩
    have hpairs : ((pairsOf records).map Prod.fst).Nodup :=
      hnodup.sublist (pairsOf_fsts_sublist records)
    unfold import_sheet
    rw [hfp]
    rw [applyDeferred_eq_map (pairsOf records) hpairs, List.map_map]
    have hpoint : ∀ r ∈ records,
        (lookupUpd (pairsOf records) ∘ fun r => { r with link := none }) r = r := by
      intro r hr
      have hfind := find_pairsOf records hnodup r hr
      simp only [Function.comp]
      unfold lookupUpd
      cases hl : r.link with
      | some v =>
        rw [hl, Option.map_some'] at hfind
        rw [show ({ r with link := none } : LinkedRow).pk = r.pk from rfl, hfind]
        show ({ r with link := some v } : LinkedRow) = r
        rw [← hl]
      | none =>
        rw [hl, Option.map_none'] at hfind
        rw [show ({ r with link := none } : LinkedRow).pk = r.pk from rfl, hfind]
        show ({ r with link := none } : LinkedRow) = r
        rw [← hl]
    rw [List.map_congr_left (g := id) (fun r hr => hpoint r hr), List.map_id]
  · intro hs
    have hfp := importSheetReplace_no_link sheet hs records
    refine ⟨by rw [hfp], ?_⟩
    unfold import_sheet
    rw [hfp]
    rfl

theorem c7_only_cashflow_links_deferred_witness :
    (([⟨1, some 2, "a"⟩, ⟨2, none, "b"⟩] : List LinkedRow).map (fun r => r.pk)).Nodup
    ∧ (linkColumnFor "cash_flow").isSome = true
    ∧ import_sheet "cash_flow" [⟨1, some 2, "a"⟩, ⟨2, none, "b"⟩]
        = [⟨1, some 2, "a"⟩, ⟨2, none, "b"⟩] :=
  ⟨by decide, by decide,
    ((c7_only_cashflow_links_deferred [⟨1, some 2, "a"⟩, ⟨2, none, "b"⟩]
      (by decide) "cash_flow").2.1 (by decide)).2⟩

end PFIS

/-! ## `finance_app/` variant (raw sqlite): investment log and holdings

Embeds `finance_app/modules/investment_log.py` together with the helpers it
calls from `finance_app/modules/cash_flow.py` and
`finance_app/modules/master_data.py`, over the sqlite schema of
`finance_app/db_init.py`.  Ids are `Int` (SQLite `INTEGER`; `add_to_master`
returns `-1` when its final lookup finds no row).  A raised `ValueError`
(empty name in `add_to_master`) is modelled as `Option.none` propagating. -/

namespace PFIS.FinanceApp

open PFIS

/-- A row of one of the `finance_app` dimension tables (id, name). -/
structure FDimRow where
  id : Int
  name : String
deriving Repr, DecidableEq

/-- A `cash_flow` row of the `finance_app` schema. -/
structure FCashFlow where
  id : Int
  date : String
  account_id : Int
  category_id : Option Int
  flow_type : String
  amount : ℚ
  source_type_id : Option Int
  remark : String
  link_investment_id : Option Int
deriving Repr, DecidableEq

/-- An `investment_log` row of the `finance_app` schema. -/
structure FInvestmentLog where
  id : Int
  date : String
  product_id : Int
  action_id : Int
  amount : ℚ
  channel_id : Option Int
  cashflow_link_id : Option Int
  remark : String
deriving Repr, DecidableEq

/-- A `holding_status` row (`last_update`, set to `DATE('now')`, is wall
clock and not modelled; `avg_yield` is always written as 0). -/
structure FHolding where
  product_id : Int
  total_invest : ℚ
  est_profit : ℚ
  avg_yield : ℚ
deriving Repr, DecidableEq

/-- The `finance_app` sqlite database slice these modules touch, with one
`AUTOINCREMENT` counter per table that gets inserted into. -/
structure FDB where
  dim_account : List FDimRow
  dim_category : List FDimRow
  dim_source_type : List FDimRow
  dim_action_type : List FDimRow
  cash_flow : List FCashFlow
  investment_log : List FInvestmentLog
  holding_status : List FHolding
  next_account_id : Int
  next_category_id : Int
  next_source_id : Int
  next_cash_id : Int
  next_invest_id : Int
deriving Repr, DecidableEq

/-- `BUY_KEYWORDS` from `finance_app/modules/investment_log.py`. -/
def BUY_KEYWORDS : List String := ["买", "申购", "加仓"]

/-- `INCOME_KEYWORDS` from `finance_app/modules/investment_log.py`. -/
def INCOME_KEYWORDS : List String := ["赎", "分红", "回款", "派息", "卖"]

/-- `_match_flow_type(action_name)`: substring-match the action name against
the two keyword tuples; buy-like → `支出` (expense), redeem/dividend-like →
`收入` (income), neither → no classification. -/
def match_flow_type (action_name : String) : Option String :=
  if BUY_KEYWORDS.any (fun k => strContains action_name k) then some "支出"
  else if INCOME_KEYWORDS.any (fun k => strContains action_name k) then some "收入"
  else none

/-- `_get_action_name`: name of the action-type row, `""` when absent. -/
def get_action_name (db : FDB) (action_id : Int) : String :=
  match db.dim_action_type.find? (fun r => r.id == action_id) with
  | some r => r.name
  | none => ""

/-- `master_data.add_to_master` on one dimension table: raise on empty name
(`none`); `INSERT OR IGNORE` (the insert is skipped only when the table has
a unique name constraint and the name exists); then `SELECT id ... WHERE
name = ?`, returning the first matching row's id, or `-1` with no row. -/
def add_to_master (rows : List FDimRow) (nextId : Int) (uniqueName : Bool)
    (new_name : String) : Option (List FDimRow × Int × Int) :=
  if new_name = "" then none
  else
    let ins :=
      if uniqueName && rows.any (fun r => r.name == new_name) then (rows, nextId)
      else (rows ++ [⟨nextId, new_name⟩], nextId + 1)
    let rid : Int :=
      match ins.1.find? (fun r => r.name == new_name) with
      | some r => r.id
      | none => -1
    some (ins.1, ins.2, rid)

/-- `_get_category_id`: look the category up by name, else create it
(`dim_category` has no unique name constraint). -/
def get_category_id (db : FDB) (name : String) : Option (FDB × Int) :=
  match db.dim_category.find? (fun r => r.name == name) with
  | some r => some (db, r.id)
  | none =>
    match add_to_master db.dim_category db.next_category_id false name with
    | some (rows, nid, rid) =>
      some ({ db with dim_category := rows, next_category_id := nid }, rid)
    | none => none

/-- `_get_source_id`: look the source type up by name, else create it
(`dim_source_type.name` is unique). -/
def get_source_id (db : FDB) (name : String) : Option (FDB × Int) :=
  match db.dim_source_type.find? (fun r => r.name == name) with
  | some r => some (db, r.id)
  | none =>
    match add_to_master db.dim_source_type db.next_source_id true name with
    | some (rows, nid, rid) =>
      some ({ db with dim_source_type := rows, next_source_id := nid }, rid)
    | none => none

/-- `SELECT ... ORDER BY id LIMIT 1`: the row with the smallest id. -/
def minIdRow : List FDimRow → Option FDimRow
  | [] => none
  | r :: rest => some (rest.foldl (fun acc x => if x.id < acc.id then x else acc) r)

/-- `_get_default_account`: first account by id, created when the table is
empty. -/
def get_default_account (db : FDB) : Option (FDB × Int) :=
  match minIdRow db.dim_account with
  | some r => some (db, r.id)
  | none =>
    match add_to_master db.dim_account db.next_account_id true "默认账户" with
    | some (rows, nid, rid) =>
      some ({ db with dim_account := rows, next_account_id := nid }, rid)
    | none => none

/-- `cash_flow.add_cash_flow`: plain INSERT of one row. -/
def add_cash_flow (db : FDB) (flow_date : String) (account_id : Int)
    (category_id : Option Int) (flow_type : String) (amount : ℚ)
    (source_type_id : Option Int) (remark : String)
    (link_investment_id : Option Int) : FDB :=
  { db with
    cash_flow := db.cash_flow ++
      [⟨db.next_cash_id, flow_date, account_id, category_id, flow_type, amount,
        source_type_id, remark, link_investment_id⟩],
    next_cash_id := db.next_cash_id + 1 }

/-- Buy detection of `update_holdings`:
`instr(a.name, '买') > 0 OR instr(a.name, '申') > 0`. -/
def holdings_buyish (name : String) : Bool :=
  strContains name "买" || strContains name "申"

/-- Redeem detection of `update_holdings`: `instr(a.name, '赎') > 0 OR
instr(a.name, '分红') > 0 OR instr(a.name, '回款') > 0`. -/
def holdings_redeemish (name : String) : Bool :=
  strContains name "赎" || strContains name "分红" || strContains name "回款"

/-- The `investment_log JOIN dim_action_type` rows (inner join: logs whose
action id has no dimension row are dropped). -/
def joined_logs (db : FDB) : List (FInvestmentLog × String) :=
  db.investment_log.filterMap (fun l =>
    (db.dim_action_type.find? (fun a => a.id == l.action_id)).map (fun a => (l, a.name)))

/-- The product ids grouped over by `update_holdings`. -/
def holding_products (db : FDB) : List Int :=
  ((joined_logs db).map (fun e => e.1.product_id)).dedup

/-- `total_invest` computed for one product:
`SUM(CASE WHEN buyish THEN amount ELSE -amount END)` — every non-buy row is
subtracted, whether redeem-like or not. -/
def total_invest_of (db : FDB) (p : Int) : ℚ :=
  (((joined_logs db).filter (fun e => e.1.product_id == p)).map
    (fun e => if holdings_buyish e.2 then e.1.amount else -e.1.amount)).sum

/-- `est_profit` computed for one product:
`SUM(CASE WHEN redeemish THEN amount ELSE 0 END) - SUM(CASE WHEN buyish THEN
amount ELSE 0 END)`. -/
def est_profit_of (db : FDB) (p : Int) : ℚ :=
  (((joined_logs db).filter (fun e => e.1.product_id == p)).map
    (fun e => if holdings_redeemish e.2 then e.1.amount else 0)).sum
  - (((joined_logs db).filter (fun e => e.1.product_id == p)).map
    (fun e => if holdings_buyish e.2 then e.1.amount else 0)).sum

/-- `update_holdings`: recompute the per-product rollup over the full
`investment_log` history.  The source issues `INSERT OR REPLACE` without
naming the id column, and the `finance_app` schema declares no unique
constraint on `holding_status.product_id`, so no conflict ever fires and
each recompute appends fresh rows. -/
def update_holdings (db : FDB) : FDB :=
  { db with
    holding_status := db.holding_status ++
      (holding_products db).map (fun p =>
        ⟨p, total_invest_of db p, est_profit_of db p, 0⟩) }

/-- `MAX(id) FROM cash_flow WHERE link_investment_id = ?` (`NULL`/`none`
when no row matches). -/
def max_linked_cash_id (cfs : List FCashFlow) (log_id : Int) : Option Int :=
  ((cfs.filter (fun c => c.link_investment_id == some log_id)).map (fun c => c.id)).max?

/-- The initial `INSERT INTO investment_log` of `add_investment_log`: the
new row takes the next id and has no cash-flow link yet. -/
def insert_log (db : FDB) (log_date : String) (product_id action_id : Int)
    (amount : ℚ) (channel_id : Option Int) (remark : String) : FDB :=
  { db with
    investment_log := db.investment_log ++
      [⟨db.next_invest_id, log_date, product_id, action_id, amount, channel_id,
        none, remark⟩],
    next_invest_id := db.next_invest_id + 1 }

/-- The account argument `channel_id or _get_default_account(conn)` of the
generated cash flow: Python truthiness — `None` and `0` both fall back to
the default account. -/
def resolve_channel (db : FDB) (channel_id : Option Int) : Option (FDB × Int) :=
  match channel_id with
  | some c => if c ≠ 0 then some (db, c) else get_default_account db
  | none => get_default_account db

/-- `add_investment_log` from `finance_app/modules/investment_log.py`:
insert the log row; when `link_cashflow` and `_match_flow_type` classifies
the action, resolve category/source/account, insert the linked cash flow,
look its id up by `MAX(id)` and — when truthy — write it back onto the log's
`cashflow_link_id`; finally recompute the holdings.  Returns the updated
database with the new log id. -/
def add_investment_log (db : FDB) (log_date : String) (product_id action_id : Int)
    (amount : ℚ) (channel_id : Option Int) (remark : String)
    (link_cashflow : Bool) : Option (FDB × Int) := do
  let log_id := db.next_invest_id
  let db1 : FDB := insert_log db log_date product_id action_id amount channel_id remark
  let db2 ←
    if link_cashflow then
      match match_flow_type (get_action_name db1 action_id) with
      | some flow_type => do
        let action_name := get_action_name db1 action_id
        let category_name := if flow_type == "支出" then "投资转出" else "投资回流"
        let s1 ← get_category_id db1 category_name
        let s2 ← get_source_id s1.1 "理财"
        let s3 ← resolve_channel s2.1 channel_id
        let dbC := add_cash_flow s3.1 log_date s3.2 (some s1.2) flow_type amount
          (some s2.2) ("理财操作：" ++ action_name) (some log_id)
        match max_linked_cash_id dbC.cash_flow log_id with
        | some cid =>
          if cid ≠ 0 then
            pure { dbC with
              investment_log := dbC.investment_log.map (fun l =>
                if l.id == log_id then { l with cashflow_link_id := some cid } else l) }
          else pure dbC
        | none => pure dbC
      | none => pure db1
    else pure db1
  pure (update_holdings db2, log_id)

/-- A database holding one investment log whose action (`转换`, convert)
matches neither the buy nor the redeem keyword set. -/
def exC6db : FDB :=
  { dim_account := [], dim_category := [], dim_source_type := []
    dim_action_type := [⟨1, "转换"⟩]
    cash_flow := []
    investment_log := [⟨1, "2024-01-10", 1, 1, 100, none, none, ""⟩]
    holding_status := []
    next_account_id := 1, next_category_id := 1, next_source_id := 1
    next_cash_id := 1, next_invest_id := 2 }

theorem sum_if_neg_split {α : Type} (q : α → Bool) (f : α → ℚ) (l : List α) :
    (l.map (fun a => if q a then f a else -f a)).sum
      = ((l.filter q).map f).sum - ((l.filter (fun a => !q a)).map f).sum := by
  induction l with
  | nil => simp
  | cons a l ih =>
    by_cases hq : q a
    · simp [List.filter_cons, hq, ih]
      ring
    · simp [List.filter_cons, hq, ih]
      ring

theorem sum_if_zero_filter {α : Type} (q : α → Bool) (f : α → ℚ) (l : List α) :
    (l.map (fun a => if q a then f a else 0)).sum = ((l.filter q).map f).sum := by
  induction l with
  | nil => simp
  | cons a l ih =>
    by_cases hq : q a <;> simp [List.filter_cons, hq, ih]

/-- C6 counterexample.  An action called `转换` (convert) contains none of
the buy keywords (`买`/`申`) and none of the redeem/dividend keywords
(`赎`/`分红`/`回款`), and `_match_flow_type` classifies it as neither — yet a
single such log of amount 100 yields `total_invest = -100`, not the 0 the
claim's "actions matching neither classification contribute nothing"
requires: the rollup's `ELSE -amount` subtracts every non-buy amount. -/
theorem c6_counterexample_neither_action_subtracted :
    holdings_buyish "转换" = false
    ∧ holdings_redeemish "转换" = false
    ∧ match_flow_type "转换" = none
    ∧ joined_logs exC6db = [(⟨1, "2024-01-10", 1, 1, 100, none, none, ""⟩, "转换")]
    ∧ total_invest_of exC6db 1 = -100
    ∧ est_profit_of exC6db 1 = 0 := by
  have hb : holdings_buyish "转换" = false := by decide
  have hrd : holdings_redeemish "转换" = false := by decide
  have hj : (joined_logs exC6db).filter
        (fun e => e.1.product_id == 1)
      = [(⟨1, "2024-01-10", 1, 1, 100, none, none, ""⟩, "转换")] := rfl
  refine ⟨rfl, rfl, rfl, rfl, ?_, ?_⟩
  · unfold total_invest_of
    rw [hj]
    simp [hb]
  · unfold est_profit_of
    rw [hj]
    simp [hb, hrd]

/-- C6 (amended).  The holding rollup, recomputed in full from the complete
`investment_log` history on every investment-log write, sets for each
product `total_invest = Σ(buy-detected amounts) − Σ(all other amounts)`:
amounts whose action name contains neither a buy keyword (`买`/`申`) nor a
redeem keyword are subtracted as well, not ignored.  `est_profit` is
`Σ(redeem-detected) − Σ(buy-detected)`. -/
theorem c6_total_invest_subtracts_every_nonbuy (db : FDB) (p : Int)
    (log_date : String) (product_id action_id : Int) (amount : ℚ)
    (channel_id : Option Int) (remark : String) :
    (total_invest_of db p
      = (((joined_logs db).filter
            (fun e => e.1.product_id == p && holdings_buyish e.2)).map
          (fun e => e.1.amount)).sum
        - (((joined_logs db).filter
            (fun e => e.1.product_id == p && !holdings_buyish e.2)).map
          (fun e => e.1.amount)).sum)
  ∧ (est_profit_of db p
      = (((joined_logs db).filter
            (fun e => e.1.product_id == p && holdings_redeemish e.2)).map
          (fun e => e.1.amount)).sum
        - (((joined_logs db).filter
            (fun e => e.1.product_id == p && holdings_buyish e.2)).map
          (fun e => e.1.amount)).sum)
  ∧ ((update_holdings db).holding_status
      = db.holding_status ++ (holding_products db).map (fun q =>
          ⟨q, total_invest_of db q, est_profit_of db q, 0⟩))
  ∧ (add_investment_log db log_date product_id action_id amount channel_id remark false
      = some (update_holdings { db with
          investment_log := db.investment_log ++
            [⟨db.next_invest_id, log_date, product_id, action_id, amount,
              channel_id, none, remark⟩],
          next_invest_id := db.next_invest_id + 1 }, db.next_invest_id)) := by
  refine ⟨?_, ?_, rfl, rfl⟩
  · unfold total_invest_of
    rw [sum_if_neg_split (fun e : FInvestmentLog × String => holdings_buyish e.2)
      (fun e : FInvestmentLog × String => e.1.amount)]
    rw [List.filter_filter, List.filter_filter]
    simp only [Bool.and_comm]
  · unfold est_profit_of
    rw [sum_if_zero_filter (fun e : FInvestmentLog × String => holdings_redeemish e.2)
      (fun e : FInvestmentLog × String => e.1.amount)]
    rw [sum_if_zero_filter (fun e : FInvestmentLog × String => holdings_buyish e.2)
      (fun e : FInvestmentLog × String => e.1.amount)]
    rw [List.filter_filter, List.filter_filter]
    simp only [Bool.and_comm]

/-! ## C2: auto-linked cash flow -/

/-- Database invariant used by the auto-link argument: primary keys are
below their `AUTOINCREMENT` counters (so they are unique and fresh ids do
not collide) and every stored cash→investment link refers to an already
existing log id. -/
def WF (db : FDB) : Prop :=
  (∀ c ∈ db.cash_flow, c.id < db.next_cash_id)
  ∧ (∀ l ∈ db.investment_log, l.id < db.next_invest_id)
  ∧ (∀ c ∈ db.cash_flow, ∀ v : Int, c.link_investment_id = some v → v < db.next_invest_id)
  ∧ 1 ≤ db.next_cash_id

theorem add_to_master_some (rows : List FDimRow) (nextId : Int) (uniq : Bool)
    (name : String) (h : ¬ name = "") :
    ∃ out, add_to_master rows nextId uniq name = some out := by
  unfold add_to_master
  rw [if_neg h]
  exact ⟨_, rfl⟩

theorem get_category_id_spec (db : FDB) (name : String) (h : ¬ name = "") :
    ∃ db2 cid, get_category_id db name = some (db2, cid)
      ∧ db2.cash_flow = db.cash_flow
      ∧ db2.investment_log = db.investment_log
      ∧ db2.dim_action_type = db.dim_action_type
      ∧ db2.next_cash_id = db.next_cash_id
      ∧ db2.next_invest_id = db.next_invest_id := by
  unfold get_category_id
  cases hf : db.dim_category.find? (fun r => r.name == name) with
  | some r => exact ⟨db, r.id, rfl, rfl, rfl, rfl, rfl, rfl⟩
  | none =>
    obtain ⟨out, hout⟩ := add_to_master_some db.dim_category db.next_category_id false name h
    obtain ⟨rows, nid, rid⟩ := out
    rw [hout]
    exact ⟨_, rid, rfl, rfl, rfl, rfl, rfl, rfl⟩

theorem get_source_id_spec (db : FDB) (name : String) (h : ¬ name = "") :
    ∃ db2 sid, get_source_id db name = some (db2, sid)
      ∧ db2.cash_flow = db.cash_flow
      ∧ db2.investment_log = db.investment_log
      ∧ db2.dim_action_type = db.dim_action_type
      ∧ db2.next_cash_id = db.next_cash_id
      ∧ db2.next_invest_id = db.next_invest_id := by
  unfold get_source_id
  cases hf : db.dim_source_type.find? (fun r => r.name == name) with
  | some r => exact ⟨db, r.id, rfl, rfl, rfl, rfl, rfl, rfl⟩
  | none =>
    obtain ⟨out, hout⟩ := add_to_master_some db.dim_source_type db.next_source_id true name h
    obtain ⟨rows, nid, rid⟩ := out
    rw [hout]
    exact ⟨_, rid, rfl, rfl, rfl, rfl, rfl, rfl⟩

theorem get_default_account_spec (db : FDB) :
    ∃ db2 acc, get_default_account db = some (db2, acc)
      ∧ db2.cash_flow = db.cash_flow
      ∧ db2.investment_log = db.investment_log
      ∧ db2.dim_action_type = db.dim_action_type
      ∧ db2.next_cash_id = db.next_cash_id
      ∧ db2.next_invest_id = db.next_invest_id := by
  unfold get_default_account
  cases hm : minIdRow db.dim_account with
  | some r => exact ⟨db, r.id, rfl, rfl, rfl, rfl, rfl, rfl⟩
  | none =>
    obtain ⟨out, hout⟩ :=
      add_to_master_some db.dim_account db.next_account_id true "默认账户" (by decide)
    obtain ⟨rows, nid, rid⟩ := out
    rw [hout]
    exact ⟨_, rid, rfl, rfl, rfl, rfl, rfl, rfl⟩

theorem resolve_channel_spec (db : FDB) (channel_id : Option Int) :
    ∃ db2 acc, resolve_channel db channel_id = some (db2, acc)
      ∧ db2.cash_flow = db.cash_flow
      ∧ db2.investment_log = db.investment_log
      ∧ db2.dim_action_type = db.dim_action_type
      ∧ db2.next_cash_id = db.next_cash_id
      ∧ db2.next_invest_id = db.next_invest_id := by
  unfold resolve_channel
  cases channel_id with
  | none => exact get_default_account_spec db
  | some c =>
    by_cases hc : c ≠ 0
    · refine ⟨db, c, ?_, rfl, rfl, rfl, rfl, rfl⟩
      show (if c ≠ 0 then some (db, c) else get_default_account db) = some (db, c)
      rw [if_pos hc]
    · obtain ⟨db2, acc, h, h1, h2, h3, h4, h5⟩ := get_default_account_spec db
      refine ⟨db2, acc, ?_, h1, h2, h3, h4, h5⟩
      show (if c ≠ 0 then some (db, c) else get_default_account db) = some (db2, acc)
      rw [if_neg hc]
      exact h

theorem opt_bind_some {α β : Type} (a : α) (f : α → Option β) :
    (some a >>= f) = f a := rfl

/-- A database whose only action type is named `buy` (English): the action
the spec's C2 scenario uses. -/
def exC2db : FDB :=
  { dim_account := [⟨1, "现金账户"⟩]
    dim_category := [⟨1, "工资收入"⟩]
    dim_source_type := [⟨1, "工资"⟩]
    dim_action_type := [⟨1, "buy"⟩]
    cash_flow := [], investment_log := [], holding_status := []
    next_account_id := 2, next_category_id := 2, next_source_id := 2
    next_cash_id := 1, next_invest_id := 1 }

/-- C2 counterexample.  `_match_flow_type` tests membership of the Chinese
keyword substrings only; the English action name `buy` contains none of
`买`/`申购`/`加仓` (nor any redeem keyword), so
`add_investment_log(action="buy", amount=1000, link_cashflow=True)` creates
*no* CashFlow and leaves `cashflow_link_id` NULL — not the one expense
CashFlow of 1000 the claim promises for action name `buy`. -/
theorem c2_counterexample_english_buy_no_cashflow :
    match_flow_type "buy" = none
    ∧ (add_investment_log exC2db "2024-01-15" 1 1 1000 (some 1) "" true).map
        (fun s => (s.1.cash_flow, s.1.investment_log.map (fun l => l.cashflow_link_id), s.2))
      = some ([], [none], 1) :=
  ⟨rfl, rfl⟩

/-- C2 (amended).  With auto-link requested, an action whose name contains a
buy keyword (`买`/`申购`/`加仓`, classified `支出`/expense) produces exactly
one new CashFlow row carrying `flow_type = 支出`, the log's amount, and a
forward link to the new log id, and the log's `cashflow_link_id` is updated
to that CashFlow's id; when the action name matches neither keyword set —
which includes the English name `buy` — no CashFlow is generated and the
link stays NULL. -/
theorem c2_autolink_buy_keyword_expense_cashflow (db : FDB) (hwf : WF db)
    (log_date : String) (product_id action_id : Int) (amount : ℚ)
    (channel_id : Option Int) (remark : String) :
    (match_flow_type (get_action_name db action_id) = none →
      ∃ db', add_investment_log db log_date product_id action_id amount channel_id remark true
          = some (db', db.next_invest_id)
        ∧ db'.cash_flow = db.cash_flow
        ∧ db'.investment_log.map (fun l => l.cashflow_link_id)
            = db.investment_log.map (fun l => l.cashflow_link_id) ++ [none])
  ∧ (match_flow_type (get_action_name db action_id) = some "支出" →
      ∃ db' cf, add_investment_log db log_date product_id action_id amount channel_id remark true
          = some (db', db.next_invest_id)
        ∧ db'.cash_flow = db.cash_flow ++ [cf]
        ∧ cf.flow_type = "支出"
        ∧ cf.amount = amount
        ∧ cf.link_investment_id = some db.next_invest_id
        ∧ cf.id = db.next_cash_id
        ∧ (db'.investment_log.filter (fun l => l.id == db.next_invest_id)).map
            (fun l => l.cashflow_link_id) = [some db.next_cash_id]) := by
  obtain ⟨hwf1, hwf2, hwf3, hwf4⟩ := hwf
  constructor
  · intro hft
    have hft' : match_flow_type
        (get_action_name (insert_log db log_date product_id action_id amount channel_id remark)
          action_id) = none := hft
    refine ⟨update_holdings (insert_log db log_date product_id action_id amount channel_id remark),
      ?_, rfl, ?_⟩
    · simp only [add_investment_log, hft']
      rfl
    · have hlog : (update_holdings
          (insert_log db log_date product_id action_id amount channel_id remark)).investment_log
          = db.investment_log ++
            [⟨db.next_invest_id, log_date, product_id, action_id, amount, channel_id,
              none, remark⟩] := rfl
      rw [hlog, List.map_append]
      rfl
  · intro hft
    have hft' : match_flow_type
        (get_action_name (insert_log db log_date product_id action_id amount channel_id remark)
          action_id) = some "支出" := hft
    obtain ⟨dbA, cid, hA, hA1, hA2, hA3, hA4, hA5⟩ := get_category_id_spec
      (insert_log db log_date product_id action_id amount channel_id remark) "投资转出" (by decide)
    obtain ⟨dbB, sid, hB, hB1, hB2, hB3, hB4, hB5⟩ := get_source_id_spec dbA "理财" (by decide)
    obtain ⟨dbC, acc, hC, hC1, hC2, hC3, hC4, hC5⟩ := resolve_channel_spec dbB channel_id
    have hCcash : dbC.cash_flow = db.cash_flow := by
      rw [hC1, hB1, hA1]
      rfl
    have hCnext : dbC.next_cash_id = db.next_cash_id := by
      rw [hC4, hB4, hA4]
      rfl
    have hCinv : dbC.investment_log
        = db.investment_log ++
          [⟨db.next_invest_id, log_date, product_id, action_id, amount, channel_id,
            none, remark⟩] := by
      rw [hC2, hB2, hA2]
      rfl
    simp only [add_investment_log, hft']
    rw [if_pos trivial]
    rw [show (if (("支出" == "支出") = true) then "投资转出" else "投资回流") = "投资转出" from rfl]
    simp only [hA, hB, opt_bind_some]
    rw [hC]
    simp only [opt_bind_some]
    have hcfrow : (add_cash_flow dbC log_date acc (some cid) "支出" amount (some sid)
          ("理财操作：" ++ get_action_name
            (insert_log db log_date product_id action_id amount channel_id remark) action_id)
          (some db.next_invest_id)).cash_flow
        = db.cash_flow ++
          [⟨db.next_cash_id, log_date, acc, some cid, "支出", amount, some sid,
            "理财操作：" ++ get_action_name db action_id, some db.next_invest_id⟩] := by
      rw [show (add_cash_flow dbC log_date acc (some cid) "支出" amount (some sid)
            ("理财操作：" ++ get_action_name
              (insert_log db log_date product_id action_id amount channel_id remark) action_id)
            (some db.next_invest_id)).cash_flow
          = dbC.cash_flow ++
            [⟨dbC.next_cash_id, log_date, acc, some cid, "支出", amount, some sid,
              "理财操作：" ++ get_action_name db action_id, some db.next_invest_id⟩] from rfl]
      rw [hCcash, hCnext]
    have hmax : max_linked_cash_id
        (db.cash_flow ++
          [⟨db.next_cash_id, log_date, acc, some cid, "支出", amount, some sid,
            "理财操作：" ++ get_action_name db action_id, some db.next_invest_id⟩])
        db.next_invest_id = some db.next_cash_id := by
      unfold max_linked_cash_id
      rw [List.filter_append]
      rw [List.filter_eq_nil_iff.mpr ?_]
      · simp
      · intro c hc
        simp only [beq_iff_eq]
        intro heq
        have := hwf3 c hc db.next_invest_id heq
        omega
    rw [hcfrow, hmax]
    have hnz : db.next_cash_id ≠ 0 := by omega
    split
    · next cid1 heq =>
      injection heq with heq'
      subst heq'
      rw [if_pos hnz]
      refine ⟨_, _, rfl, rfl, rfl, rfl, rfl, rfl, ?_⟩
      have hloginv : (add_cash_flow dbC log_date acc (some cid) "支出" amount (some sid)
            ("理财操作：" ++ get_action_name
              (insert_log db log_date product_id action_id amount channel_id remark) action_id)
            (some db.next_invest_id)).investment_log = dbC.investment_log := rfl
      have hold : db.investment_log.map (fun l =>
          if (l.id == db.next_invest_id) = true then
            { l with cashflow_link_id := some db.next_cash_id } else l) = db.investment_log := by
        rw [List.map_congr_left (g := id) ?_, List.map_id]
        intro l hl
        have hlt := hwf2 l hl
        have hne : (l.id == db.next_invest_id) = false := by
          simp only [beq_eq_false_iff_ne, ne_eq]
          omega
        simp [hne]
      have hbeq : ((⟨db.next_invest_id, log_date, product_id, action_id, amount, channel_id,
          none, remark⟩ : FInvestmentLog).id == db.next_invest_id) = true := by
        simp
      have hnil : db.investment_log.filter
          (fun l => l.id == db.next_invest_id) = [] := by
        apply List.filter_eq_nil_iff.mpr
        intro l hl
        have hlt := hwf2 l hl
        simp only [beq_iff_eq]
        omega
      show ((List.map _ (dbC.investment_log)).filter _).map _ = _
      rw [hCinv, List.map_append, hold, List.filter_append, hnil]
      simp [hbeq]
    · next heq => simp at heq

/-- `exC2db` with the action named `买入` instead of English `buy`. -/
def exC2buyDb : FDB :=
  { dim_account := [⟨1, "现金账户"⟩]
    dim_category := [⟨1, "工资收入"⟩]
    dim_source_type := [⟨1, "工资"⟩]
    dim_action_type := [⟨1, "买入"⟩]
    cash_flow := [], investment_log := [], holding_status := []
    next_account_id := 2, next_category_id := 2, next_source_id := 2
    next_cash_id := 1, next_invest_id := 1 }

theorem c2_autolink_buy_keyword_expense_cashflow_witness :
    WF exC2buyDb
    ∧ match_flow_type (get_action_name exC2buyDb 1) = some "支出"
    ∧ ∃ db' cf, add_investment_log exC2buyDb "2024-01-15" 1 1 1000 (some 1) "" true
          = some (db', exC2buyDb.next_invest_id)
        ∧ db'.cash_flow = exC2buyDb.cash_flow ++ [cf]
        ∧ cf.flow_type = "支出"
        ∧ cf.amount = 1000
        ∧ cf.link_investment_id = some exC2buyDb.next_invest_id
        ∧ cf.id = exC2buyDb.next_cash_id
        ∧ (db'.investment_log.filter (fun l => l.id == exC2buyDb.next_invest_id)).map
            (fun l => l.cashflow_link_id) = [some exC2buyDb.next_cash_id] := by
  have hwf : WF exC2buyDb := ⟨by decide, by decide, by decide, by decide⟩
  refine ⟨hwf, by decide, ?_⟩
  exact (c2_autolink_buy_keyword_expense_cashflow exC2buyDb hwf "2024-01-15" 1 1 1000
    (some 1) "").2 (by decide)

end PFIS.FinanceApp

/-! ## Seed deduplication (`app/db_init.py`, C1)

`_ensure_master_defaults` runs the same loop body for every entry of
`MASTER_DEFAULTS`; the body is embedded once over one dimension table
together with its mapped reference columns (`REFERENCE_MAP`). -/

namespace PFIS

/-- One mapped foreign-key column of a transactional table: each entry is
`(row primary key, FK value)`.  `REFERENCE_MAP` determines which columns a
dimension table carries. -/
abbrev RefCol := List (Nat × Option Nat)

/-- One dimension table with its mapped reference columns and the
`AUTOINCREMENT` counter for inserts. -/
structure DimTableState where
  rows : List DimRow
  refs : List RefCol
  next_id : Nat
deriving Repr, DecidableEq

/-- `UPDATE related SET col = target WHERE col = source` on one column. -/
def reassignCol (src tgt : Nat) (col : RefCol) : RefCol :=
  col.map (fun e => if e.2 == some src then (e.1, some tgt) else e)

/-- `_reassign_references`: the update above over every mapped column. -/
def reassign_references (st : DimTableState) (src tgt : Nat) : DimTableState :=
  { st with refs := st.refs.map (reassignCol src tgt) }

/-- Reactivation of a kept primary
(`if row.status != "active": row.status = "active"`). -/
def reactivate (r : DimRow) : DimRow :=
  if r.status ≠ some "active" then { r with status := some "active" } else r

/-- The duplicate-scan loop of `_ensure_master_defaults` over the fetched
`SELECT ... WHERE name IN names ORDER BY id` result: first occurrence of a
name is reactivated and recorded as primary in `kept`; every later
occurrence has all references rewritten from its id to the primary's id and
is then deleted. -/
def dedupScan (kept : List (String × Nat)) (st : DimTableState) :
    List DimRow → DimTableState
  | [] => st
  | row :: rest =>
    match kept.find? (fun e => e.1 == row.name) with
    | none =>
      dedupScan (kept ++ [(row.name, row.id)])
        { st with rows := st.rows.map (fun r => if r.id == row.id then reactivate r else r) }
        rest
    | some e =>
      let st1 := reassign_references st row.id e.2
      dedupScan kept { st1 with rows := st1.rows.filter (fun r => !(r.id == row.id)) } rest

/-- The insert phase: every default name not in the post-dedup snapshot of
existing names is inserted with the model's default `status = "active"`. -/
def insertMissing (existing : List String) (st : DimTableState) :
    List String → DimTableState
  | [] => st
  | n :: rest =>
    if existing.contains n then insertMissing existing st rest
    else insertMissing existing
      { st with
        rows := st.rows ++ [⟨st.next_id, n, some "active"⟩]
        next_id := st.next_id + 1 } rest

/-- The loop body of `_ensure_master_defaults` for one dimension table:
fetch the rows whose name is a default ordered by id, run the duplicate
scan, snapshot the names still present, then insert the missing defaults. -/
def ensure_defaults_table (names : List String) (st : DimTableState) : DimTableState :=
  let matching := (st.rows.filter (fun r => names.contains r.name)).insertionSort
    (fun a b => a.id ≤ b.id)
  let st1 := dedupScan [] st matching
  let existing := (st1.rows.filter (fun r => names.contains r.name)).map (fun r => r.name)
  insertMissing existing st1 names

/-- `MASTER_DEFAULTS` from `app/db_init.py`: the default seed names of each
dimension table (the loop applies `ensure_defaults_table` to every entry). -/
def MASTER_DEFAULTS : List (String × List String) :=
  [("dim_account", ["现金账户", "银行卡", "证券账户"]),
   ("dim_category", ["工资收入", "生活支出", "投资转出", "投资回流"]),
   ("dim_product_type", ["货币基金", "股票基金", "债券"]),
   ("dim_risk_level", ["低", "中", "高"]),
   ("dim_action_type", ["买入", "赎回", "分红"]),
   ("dim_source_type", ["工资", "理财", "其他"]),
   ("dim_metric", ["净值", "收益率", "波动率"]),
   ("dim_investment_term", ["T+1", "T+7", "30天", "90天"])]

instance : IsTotal DimRow (fun a b => a.id ≤ b.id) :=
  ⟨fun a b => Nat.le_total a.id b.id⟩

instance : IsTrans DimRow (fun a b => a.id ≤ b.id) :=
  ⟨fun _ _ _ => Nat.le_trans⟩

instance : DecidableRel (fun a b : DimRow => a.id ≤ b.id) :=
  fun _ _ => inferInstance

/-- The `(source id, target id)` reference-rewrite pairs the duplicate scan
issues, in order. -/
def pairsOfScan (kept : List (String × Nat)) : List DimRow → List (Nat × Nat)
  | [] => []
  | row :: rest =>
    match kept.find? (fun e => e.1 == row.name) with
    | none => pairsOfScan (kept ++ [(row.name, row.id)]) rest
    | some e => (row.id, e.2) :: pairsOfScan kept rest

/-- The ids the scan newly keeps as primaries, in encounter order. -/
def scanKeptIds (kept : List (String × Nat)) : List DimRow → List Nat
  | [] => []
  | row :: rest =>
    match kept.find? (fun e => e.1 == row.name) with
    | none => row.id :: scanKeptIds (kept ++ [(row.name, row.id)]) rest
    | some _ => scanKeptIds kept rest

/-- Sequential application of reference-rewrite pairs. -/
def applyPairs : List (Nat × Nat) → List RefCol → List RefCol
  | [], refs => refs
  | p :: ps, refs => applyPairs ps (refs.map (reassignCol p.1 p.2))

/-- Where a chain of rewrite pairs sends a value. -/
def redirectPairs (ps : List (Nat × Nat)) (d : Nat) : Nat :=
  match ps.find? (fun p => p.1 == d) with
  | some p => p.2
  | none => d

/-- No pair's target is a later pair's source. -/
def ChainFree : List (Nat × Nat) → Prop
  | [] => True
  | p :: ps => (∀ q ∈ ps, p.2 ≠ q.1) ∧ ChainFree ps

/-- Id of the first row carrying a name. -/
def firstIdOf (l : List DimRow) (n : String) : Option Nat :=
  (l.find? (fun r => r.name == n)).map (fun r => r.id)

/-- The lowest id among the rows carrying a name. -/
def primaryIdOf (rows : List DimRow) (n : String) : Option Nat :=
  ((rows.filter (fun r => r.name == n)).map (fun r => r.id)).min?

/-- Where the dedup pass is supposed to send a foreign-key value: the id of
a row whose name is a default is redirected to the lowest id carrying that
name; every other value is untouched. -/
def redirectOf (names : List String) (rows : List DimRow) (d : Nat) : Nat :=
  match rows.find? (fun r => r.id == d) with
  | some r =>
    if names.contains r.name then (primaryIdOf rows r.name).getD d else d
  | none => d

theorem reactivate_id (r : DimRow) : (reactivate r).id = r.id := by
  unfold reactivate
  split <;> rfl

theorem reactivate_name (r : DimRow) : (reactivate r).name = r.name := by
  unfold reactivate
  split <;> rfl

theorem dedupScan_refs (l : List DimRow) : ∀ kept st,
    (dedupScan kept st l).refs = applyPairs (pairsOfScan kept l) st.refs := by
  induction l with
  | nil => intro kept st; rfl
  | cons row rest ih =>
    intro kept st
    unfold dedupScan pairsOfScan
    cases kept.find? (fun e => e.1 == row.name) with
    | none => exact ih _ _
    | some e =>
      show (dedupScan kept _ rest).refs = applyPairs ((row.id, e.2) :: pairsOfScan kept rest) _
      rw [ih]
      rfl

theorem pairsOfScan_fst_sublist (l : List DimRow) : ∀ kept,
    List.Sublist ((pairsOfScan kept l).map Prod.fst) (l.map (fun r => r.id)) := by
  induction l with
  | nil => intro kept; simp [pairsOfScan]
  | cons row rest ih =>
    intro kept
    unfold pairsOfScan
    cases kept.find? (fun e => e.1 == row.name) with
    | none => exact (ih _).cons _
    | some e =>
      simp only [List.map_cons]
      exact (ih _).cons₂ _

theorem scanKeptIds_sublist (l : List DimRow) : ∀ kept,
    List.Sublist (scanKeptIds kept l) (l.map (fun r => r.id)) := by
  induction l with
  | nil => intro kept; simp [scanKeptIds]
  | cons row rest ih =>
    intro kept
    unfold scanKeptIds
    cases kept.find? (fun e => e.1 == row.name) with
    | none =>
      simp only [List.map_cons]
      exact (ih _).cons₂ _
    | some e => exact (ih _).cons _

theorem pairsOfScan_chainFree (l : List DimRow) : ∀ kept,
    (l.map (fun r => r.id)).Nodup →
    (∀ e ∈ kept, e.2 ∉ l.map (fun r => r.id)) →
    ChainFree (pairsOfScan kept l) := by
  induction l with
  | nil => intro kept _ _; trivial
  | cons row rest ih =>
    intro kept hnodup hkept
    have hnr : (rest.map (fun r => r.id)).Nodup := (List.nodup_cons.mp hnodup).2
    have hhd : row.id ∉ rest.map (fun r => r.id) := (List.nodup_cons.mp hnodup).1
    unfold pairsOfScan
    cases hf : kept.find? (fun e => e.1 == row.name) with
    | none =>
      apply ih _ hnr
      intro e he
      rcases List.mem_append.mp he with h | h
      · exact fun hmem => hkept e h (List.mem_cons_of_mem _ hmem)
      · have : e = (row.name, row.id) := by simpa using h
        rw [this]
        exact hhd
    | some e =>
      refine ⟨?_, ih _ hnr (fun x hx hmem => hkept x hx (List.mem_cons_of_mem _ hmem))⟩
      intro q hq
      have hq1 : q.1 ∈ (pairsOfScan kept rest).map Prod.fst := List.mem_map_of_mem _ hq
      have hq2 : q.1 ∈ rest.map (fun r => r.id) := (pairsOfScan_fst_sublist rest kept).subset hq1
      have he2 : e.2 ∉ (row.id :: rest.map (fun r => r.id)) :=
        hkept e (List.mem_of_find?_eq_some hf)
      intro heq
      exact he2 (heq ▸ List.mem_cons_of_mem _ hq2)

theorem applyPairs_map (ps : List (Nat × Nat)) :
    ((ps.map Prod.fst).Nodup) → ChainFree ps →
    ∀ refs : List RefCol,
      applyPairs ps refs
        = refs.map (fun col => col.map (fun e => (e.1, e.2.map (redirectPairs ps)))) := by
  induction ps with
  | nil =>
    intro _ _ refs
    show refs = _
    conv_lhs => rw [← List.map_id refs]
    apply List.map_congr_left
    intro col _
    conv_lhs => rw [show (id col : RefCol) = col from rfl, ← List.map_id col]
    apply List.map_congr_left
    intro e _
    cases e with
    | mk pk v =>
      cases v <;> rfl
  | cons p ps ih =>
    intro hnodup hcf refs
    have hns : (ps.map Prod.fst).Nodup := (List.nodup_cons.mp hnodup).2
    have hhd : p.1 ∉ ps.map Prod.fst := (List.nodup_cons.mp hnodup).1
    unfold applyPairs
    rw [ih hns hcf.2, List.map_map]
    apply List.map_congr_left
    intro col _
    simp only [Function.comp, reassignCol, List.map_map]
    apply List.map_congr_left
    intro e _
    have hfind : ps.find? (fun q => q.1 == p.2) = none := by
      apply List.find?_eq_none.mpr
      intro q hq
      simp only [beq_iff_eq]
      intro hqe
      exact (hcf.1 q hq) hqe.symm
    by_cases hv : e.2 = some p.1
    · have hvb : (e.2 == some p.1) = true := by simp [hv]
      show (fun x => (x.1, x.2.map (redirectPairs ps)))
          (if (e.2 == some p.1) = true then (e.1, some p.2) else e)
        = (e.1, e.2.map (redirectPairs (p :: ps)))
      rw [if_pos hvb]
      show (e.1, (some p.2).map (redirectPairs ps)) = _
      rw [hv]
      simp only [Option.map_some']
      have h1 : redirectPairs ps p.2 = p.2 := by
        unfold redirectPairs
        rw [hfind]
      have h2 : redirectPairs (p :: ps) p.1 = p.2 := by
        unfold redirectPairs
        rw [List.find?_cons_of_pos _ (by simp)]
      rw [h1, h2]
    · have hvb : (e.2 == some p.1) = false := by simp [hv]
      show (fun x => (x.1, x.2.map (redirectPairs ps)))
          (if (e.2 == some p.1) = true then (e.1, some p.2) else e)
        = (e.1, e.2.map (redirectPairs (p :: ps)))
      rw [hvb, if_neg (by simp)]
      show (e.1, e.2.map (redirectPairs ps)) = (e.1, e.2.map (redirectPairs (p :: ps)))
      cases hev : e.2 with
      | none => rfl
      | some v =>
        have hvp : ¬ v = p.1 := fun h => hv (by rw [hev, h])
        simp only [Option.map_some']
        have hred : redirectPairs (p :: ps) v = redirectPairs ps v := by
          unfold redirectPairs
          rw [List.find?_cons_of_neg _ (by simp only [beq_iff_eq]; exact Ne.symm hvp)]
        rw [hred]

theorem row_id_injective {l : List DimRow} (hnodup : (l.map (fun r => r.id)).Nodup)
    {a b : DimRow} (ha : a ∈ l) (hb : b ∈ l) (hid : a.id = b.id) : a = b :=
  List.inj_on_of_nodup_map hnodup ha hb hid

theorem pairsOfScan_find_none_of_not_mem (l : List DimRow) (kept : List (String × Nat))
    (d : Nat) (hd : d ∉ l.map (fun r => r.id)) :
    (pairsOfScan kept l).find? (fun p => p.1 == d) = none := by
  apply List.find?_eq_none.mpr
  intro q hq
  simp only [beq_iff_eq]
  intro hqd
  have hq1 : q.1 ∈ (pairsOfScan kept l).map Prod.fst := List.mem_map_of_mem _ hq
  exact hd (hqd ▸ (pairsOfScan_fst_sublist l kept).subset hq1)

theorem scanKeptIds_not_mem_of_not_mem (l : List DimRow) (kept : List (String × Nat))
    (d : Nat) (hd : d ∉ l.map (fun r => r.id)) : d ∉ scanKeptIds kept l :=
  fun hmem => hd ((scanKeptIds_sublist l kept).subset hmem)

theorem pairsOfScan_find_of_kept (l : List DimRow) : ∀ (kept : List (String × Nat))
    (row : DimRow) (e : String × Nat),
    row ∈ l → (l.map (fun r => r.id)).Nodup →
    kept.find? (fun x => x.1 == row.name) = some e →
    (pairsOfScan kept l).find? (fun p => p.1 == row.id) = some (row.id, e.2) := by
  induction l with
  | nil => intro kept row e h; cases h
  | cons r0 rest ih =>
    intro kept row e hmem hnodup hk
    have hhd : r0.id ∉ rest.map (fun r => r.id) := (List.nodup_cons.mp (by simpa using hnodup)).1
    have hnr : (rest.map (fun r => r.id)).Nodup := (List.nodup_cons.mp (by simpa using hnodup)).2
    rcases List.mem_cons.mp hmem with rfl | hr'
    · unfold pairsOfScan
      rw [hk]
      rw [List.find?_cons_of_pos _ (by simp)]
    · have hne : ¬ r0.id = row.id := fun h => hhd (h ▸ List.mem_map_of_mem _ hr')
      unfold pairsOfScan
      cases hf : kept.find? (fun x => x.1 == r0.name) with
      | some e0 =>
        rw [List.find?_cons_of_neg _ (by simp only [beq_iff_eq]; exact hne)]
        exact ih kept row e hr' hnr hk
      | none =>
        apply ih _ row e hr' hnr
        rw [List.find?_append, hk]
        rfl

theorem scanKeptIds_not_mem_of_kept (l : List DimRow) : ∀ (kept : List (String × Nat))
    (row : DimRow) (e : String × Nat),
    row ∈ l → (l.map (fun r => r.id)).Nodup →
    kept.find? (fun x => x.1 == row.name) = some e →
    row.id ∉ scanKeptIds kept l := by
  induction l with
  | nil => intro kept row e h; cases h
  | cons r0 rest ih =>
    intro kept row e hmem hnodup hk
    have hhd : r0.id ∉ rest.map (fun r => r.id) := (List.nodup_cons.mp (by simpa using hnodup)).1
    have hnr : (rest.map (fun r => r.id)).Nodup := (List.nodup_cons.mp (by simpa using hnodup)).2
    rcases List.mem_cons.mp hmem with rfl | hr'
    · unfold scanKeptIds
      rw [hk]
      exact scanKeptIds_not_mem_of_not_mem rest kept row.id hhd
    · have hne : ¬ r0.id = row.id := fun h => hhd (h ▸ List.mem_map_of_mem _ hr')
      unfold scanKeptIds
      cases hf : kept.find? (fun x => x.1 == r0.name) with
      | some e0 => exact ih kept row e hr' hnr hk
      | none =>
        intro hmem2
        rcases List.mem_cons.mp hmem2 with h | h
        · exact hne h.symm
        · refine absurd h (ih _ row e hr' hnr ?_)
          rw [List.find?_append, hk]
          rfl

theorem firstIdOf_cons_pos (r0 : DimRow) (rest : List DimRow) (n : String)
    (h : r0.name = n) : firstIdOf (r0 :: rest) n = some r0.id := by
  unfold firstIdOf
  rw [List.find?_cons_of_pos _ (by simp [h])]
  rfl

theorem firstIdOf_cons_neg (r0 : DimRow) (rest : List DimRow) (n : String)
    (h : ¬ r0.name = n) : firstIdOf (r0 :: rest) n = firstIdOf rest n := by
  unfold firstIdOf
  rw [List.find?_cons_of_neg _ (by simp only [beq_iff_eq]; exact h)]

theorem pairsOfScan_find_dup (l : List DimRow) : ∀ (kept : List (String × Nat))
    (row : DimRow) (m : Nat),
    row ∈ l → (l.map (fun r => r.id)).Nodup →
    kept.find? (fun x => x.1 == row.name) = none →
    firstIdOf l row.name = some m → ¬ m = row.id →
    (pairsOfScan kept l).find? (fun p => p.1 == row.id) = some (row.id, m) := by
  induction l with
  | nil => intro kept row m h; cases h
  | cons r0 rest ih =>
    intro kept row m hmem hnodup hk hfirst hne
    have hhd : r0.id ∉ rest.map (fun r => r.id) := (List.nodup_cons.mp (by simpa using hnodup)).1
    have hnr : (rest.map (fun r => r.id)).Nodup := (List.nodup_cons.mp (by simpa using hnodup)).2
    rcases List.mem_cons.mp hmem with rfl | hr'
    · exfalso
      rw [firstIdOf_cons_pos row rest row.name rfl] at hfirst
      exact hne (Option.some.inj hfirst).symm
    · have hne0 : ¬ r0.id = row.id := fun h => hhd (h ▸ List.mem_map_of_mem _ hr')
      by_cases hname : r0.name = row.name
      · have hm : m = r0.id := by
          rw [firstIdOf_cons_pos r0 rest row.name hname] at hfirst
          exact (Option.some.inj hfirst).symm
        have hf0 : kept.find? (fun x => x.1 == r0.name) = none := by
          rw [show (fun x : String × Nat => x.1 == r0.name)
            = (fun x : String × Nat => x.1 == row.name) from funext (fun x => by rw [hname])]
          exact hk
        unfold pairsOfScan
        rw [hf0, hm]
        exact pairsOfScan_find_of_kept rest _ row (r0.name, r0.id) hr' hnr
          (by rw [List.find?_append, hk]
              show Option.or none _ = _
              rw [Option.none_or]
              rw [List.find?_cons_of_pos _ (by simp [hname])])
      · have hfirst' : firstIdOf rest row.name = some m := by
          rw [firstIdOf_cons_neg r0 rest row.name hname] at hfirst
          exact hfirst
        unfold pairsOfScan
        cases hf0 : kept.find? (fun x => x.1 == r0.name) with
        | some e0 =>
          rw [List.find?_cons_of_neg _ (by simp only [beq_iff_eq]; exact hne0)]
          exact ih kept row m hr' hnr hk hfirst' hne
        | none =>
          apply ih _ row m hr' hnr ?_ hfirst' hne
          rw [List.find?_append, hk]
          show Option.or none _ = none
          rw [Option.none_or]
          rw [List.find?_cons_of_neg _ (by simp only [beq_iff_eq]; exact hname)]
          rfl

theorem pairsOfScan_find_primary (l : List DimRow) : ∀ (kept : List (String × Nat))
    (row : DimRow),
    row ∈ l → (l.map (fun r => r.id)).Nodup →
    kept.find? (fun x => x.1 == row.name) = none →
    firstIdOf l row.name = some row.id →
    (pairsOfScan kept l).find? (fun p => p.1 == row.id) = none := by
  induction l with
  | nil => intro kept row h; cases h
  | cons r0 rest ih =>
    intro kept row hmem hnodup hk hfirst
    have hhd : r0.id ∉ rest.map (fun r => r.id) := (List.nodup_cons.mp (by simpa using hnodup)).1
    have hnr : (rest.map (fun r => r.id)).Nodup := (List.nodup_cons.mp (by simpa using hnodup)).2
    rcases List.mem_cons.mp hmem with rfl | hr'
    · unfold pairsOfScan
      rw [hk]
      exact pairsOfScan_find_none_of_not_mem rest _ row.id hhd
    · have hne0 : ¬ r0.id = row.id := fun h => hhd (h ▸ List.mem_map_of_mem _ hr')
      by_cases hname : r0.name = row.name
      · exfalso
        rw [firstIdOf_cons_pos r0 rest row.name hname] at hfirst
        exact hne0 (Option.some.inj hfirst)
      · have hfirst' : firstIdOf rest row.name = some row.id := by
          rw [firstIdOf_cons_neg r0 rest row.name hname] at hfirst
          exact hfirst
        unfold pairsOfScan
        cases hf0 : kept.find? (fun x => x.1 == r0.name) with
        | some e0 =>
          rw [List.find?_cons_of_neg _ (by simp only [beq_iff_eq]; exact hne0)]
          exact ih kept row hr' hnr hk hfirst'
        | none =>
          apply ih _ row hr' hnr ?_ hfirst'
          rw [List.find?_append, hk]
          show Option.or none _ = none
          rw [Option.none_or]
          rw [List.find?_cons_of_neg _ (by simp only [beq_iff_eq]; exact hname)]
          rfl

theorem scanKeptIds_mem_primary (l : List DimRow) : ∀ (kept : List (String × Nat))
    (row : DimRow),
    row ∈ l → (l.map (fun r => r.id)).Nodup →
    kept.find? (fun x => x.1 == row.name) = none →
    firstIdOf l row.name = some row.id →
    row.id ∈ scanKeptIds kept l := by
  induction l with
  | nil => intro kept row h; cases h
  | cons r0 rest ih =>
    intro kept row hmem hnodup hk hfirst
    have hhd : r0.id ∉ rest.map (fun r => r.id) := (List.nodup_cons.mp (by simpa using hnodup)).1
    have hnr : (rest.map (fun r => r.id)).Nodup := (List.nodup_cons.mp (by simpa using hnodup)).2
    rcases List.mem_cons.mp hmem with rfl | hr'
    · unfold scanKeptIds
      rw [hk]
      exact List.mem_cons_self _ _
    · have hne0 : ¬ r0.id = row.id := fun h => hhd (h ▸ List.mem_map_of_mem _ hr')
      by_cases hname : r0.name = row.name
      · exfalso
        rw [firstIdOf_cons_pos r0 rest row.name hname] at hfirst
        exact hne0 (Option.some.inj hfirst)
      · have hfirst' : firstIdOf rest row.name = some row.id := by
          rw [firstIdOf_cons_neg r0 rest row.name hname] at hfirst
          exact hfirst
        unfold scanKeptIds
        cases hf0 : kept.find? (fun x => x.1 == r0.name) with
        | some e0 => exact ih kept row hr' hnr hk hfirst'
        | none =>
          apply List.mem_cons_of_mem
          apply ih _ row hr' hnr ?_ hfirst'
          rw [List.find?_append, hk]
          show Option.or none _ = none
          rw [Option.none_or]
          rw [List.find?_cons_of_neg _ (by simp only [beq_iff_eq]; exact hname)]
          rfl

theorem scanKeptIds_not_mem_dup (l : List DimRow) : ∀ (kept : List (String × Nat))
    (row : DimRow) (m : Nat),
    row ∈ l → (l.map (fun r => r.id)).Nodup →
    kept.find? (fun x => x.1 == row.name) = none →
    firstIdOf l row.name = some m → ¬ m = row.id →
    row.id ∉ scanKeptIds kept l := by
  induction l with
  | nil => intro kept row m h; cases h
  | cons r0 rest ih =>
    intro kept row m hmem hnodup hk hfirst hne
    have hhd : r0.id ∉ rest.map (fun r => r.id) := (List.nodup_cons.mp (by simpa using hnodup)).1
    have hnr : (rest.map (fun r => r.id)).Nodup := (List.nodup_cons.mp (by simpa using hnodup)).2
    rcases List.mem_cons.mp hmem with rfl | hr'
    · exfalso
      rw [firstIdOf_cons_pos row rest row.name rfl] at hfirst
      exact hne (Option.some.inj hfirst).symm
    · have hne0 : ¬ r0.id = row.id := fun h => hhd (h ▸ List.mem_map_of_mem _ hr')
      by_cases hname : r0.name = row.name
      · have hf0 : kept.find? (fun x => x.1 == r0.name) = none := by
          rw [show (fun x : String × Nat => x.1 == r0.name)
            = (fun x : String × Nat => x.1 == row.name) from funext (fun x => by rw [hname])]
          exact hk
        unfold scanKeptIds
        rw [hf0]
        intro hmem2
        rcases List.mem_cons.mp hmem2 with h | h
        · exact hne0 h.symm
        · exact scanKeptIds_not_mem_of_kept rest _ row (r0.name, r0.id) hr' hnr
            (by rw [List.find?_append, hk]
                show Option.or none _ = _
                rw [Option.none_or]
                rw [List.find?_cons_of_pos _ (by simp [hname])]) h
      · have hfirst' : firstIdOf rest row.name = some m := by
          rw [firstIdOf_cons_neg r0 rest row.name hname] at hfirst
          exact hfirst
        unfold scanKeptIds
        cases hf0 : kept.find? (fun x => x.1 == r0.name) with
        | some e0 => exact ih kept row m hr' hnr hk hfirst' hne
        | none =>
          intro hmem2
          rcases List.mem_cons.mp hmem2 with h | h
          · exact hne0 h.symm
          · refine absurd h (ih _ row m hr' hnr ?_ hfirst' hne)
            rw [List.find?_append, hk]
            show Option.or none _ = none
            rw [Option.none_or]
            rw [List.find?_cons_of_neg _ (by simp only [beq_iff_eq]; exact hname)]
            rfl

theorem reactivate_status (r : DimRow) : (reactivate r).status = some "active" := by
  unfold reactivate
  by_cases h : r.status ≠ some "active"
  · rw [if_pos h]
  · rw [if_neg h]
    exact not_not.mp h

/-- What the duplicate scan does to one pre-existing row: reference sources
are deleted, newly kept primaries are reactivated, everything else is
untouched. -/
def scanRowMap (kept : List (String × Nat)) (l : List DimRow) (r : DimRow) : Option DimRow :=
  if (pairsOfScan kept l).any (fun p => p.1 == r.id) then none
  else if (scanKeptIds kept l).any (fun k => k == r.id) then some (reactivate r)
  else some r

theorem pairsOfScan_any_eq_false (l : List DimRow) (kept : List (String × Nat))
    (d : Nat) (hd : d ∉ l.map (fun r => r.id)) :
    (pairsOfScan kept l).any (fun p => p.1 == d) = false := by
  rw [Bool.eq_false_iff]
  intro hany
  rcases List.any_eq_true.mp hany with ⟨p, hp, hpe⟩
  have hp1 : p.1 ∈ (pairsOfScan kept l).map Prod.fst := List.mem_map_of_mem _ hp
  exact hd (beq_iff_eq.mp hpe ▸ (pairsOfScan_fst_sublist l kept).subset hp1)

theorem scanKeptIds_any_eq_false (l : List DimRow) (kept : List (String × Nat))
    (d : Nat) (hd : d ∉ l.map (fun r => r.id)) :
    (scanKeptIds kept l).any (fun k => k == d) = false := by
  rw [Bool.eq_false_iff]
  intro hany
  rcases List.any_eq_true.mp hany with ⟨k, hk, hke⟩
  exact hd (beq_iff_eq.mp hke ▸ (scanKeptIds_sublist l kept).subset hk)

theorem filterMap_filter_eq {α β : Type} (p : α → Bool) (f : α → Option β) (l : List α) :
    (l.filter p).filterMap f = l.filterMap (fun a => if p a then f a else none) := by
  induction l with
  | nil => rfl
  | cons a l ih =>
    by_cases h : p a
    · cases hfa : f a with
      | none => simp [List.filter_cons, h, List.filterMap_cons, hfa, ih]
      | some b => simp [List.filter_cons, h, List.filterMap_cons, hfa, ih]
    · simp [List.filter_cons, h, List.filterMap_cons, ih]

theorem dedupScan_rows (l : List DimRow) : ∀ (kept : List (String × Nat))
    (st : DimTableState), (l.map (fun r => r.id)).Nodup →
    (dedupScan kept st l).rows = st.rows.filterMap (scanRowMap kept l) := by
  induction l with
  | nil =>
    intro kept st _
    show st.rows = _
    rw [show scanRowMap kept [] = some from funext (fun r => rfl), List.filterMap_some]
  | cons row rest ih =>
    intro kept st hnodup
    have hhd : row.id ∉ rest.map (fun r => r.id) := (List.nodup_cons.mp hnodup).1
    have hnr : (rest.map (fun r => r.id)).Nodup := (List.nodup_cons.mp hnodup).2
    unfold dedupScan
    cases hf : kept.find? (fun e => e.1 == row.name) with
    | none =>
      rw [ih _ _ hnr, List.filterMap_map]
      congr 1
      funext r
      show scanRowMap (kept ++ [(row.name, row.id)]) rest
          (if r.id == row.id then reactivate r else r)
        = scanRowMap kept (row :: rest) r
      have hps : pairsOfScan kept (row :: rest)
          = pairsOfScan (kept ++ [(row.name, row.id)]) rest := by
        conv_lhs => unfold pairsOfScan
        rw [hf]
      have hks : scanKeptIds kept (row :: rest)
          = row.id :: scanKeptIds (kept ++ [(row.name, row.id)]) rest := by
        conv_lhs => unfold scanKeptIds
        rw [hf]
      by_cases hr : r.id = row.id
      · rw [if_pos (by simp [hr])]
        unfold scanRowMap
        rw [hps, hks, reactivate_id, hr]
        rw [pairsOfScan_any_eq_false rest _ row.id hhd]
        rw [scanKeptIds_any_eq_false rest _ row.id hhd]
        have hbe : (row.id == row.id) = true := by simp
        conv_rhs => rw [List.any_cons, hbe, Bool.true_or]
        rfl
      · rw [if_neg (by simp [hr])]
        unfold scanRowMap
        rw [hps, hks]
        have hbe : (row.id == r.id) = false := by simp [Ne.symm hr]
        conv_rhs => rw [List.any_cons, hbe, Bool.false_or]
    | some e =>
      rw [ih _ _ hnr]
      show ((st.rows.filter (fun r => !(r.id == row.id))).filterMap (scanRowMap kept rest)) = _
      rw [filterMap_filter_eq]
      congr 1
      funext r
      have hps : pairsOfScan kept (row :: rest)
          = (row.id, e.2) :: pairsOfScan kept rest := by
        conv_lhs => unfold pairsOfScan
        rw [hf]
      have hks : scanKeptIds kept (row :: rest) = scanKeptIds kept rest := by
        conv_lhs => unfold scanKeptIds
        rw [hf]
      show (if !(r.id == row.id) then scanRowMap kept rest r else none)
        = scanRowMap kept (row :: rest) r
      by_cases hr : r.id = row.id
      · rw [if_neg (by simp [hr])]
        unfold scanRowMap
        rw [hps, hks]
        have hbe : (row.id == r.id) = true := by simp [hr]
        conv_rhs => rw [List.any_cons, hbe, Bool.true_or]
        rfl
      · rw [if_pos (by simp [hr])]
        unfold scanRowMap
        rw [hps, hks]
        have hbe : (row.id == r.id) = false := by simp [Ne.symm hr]
        conv_rhs => rw [List.any_cons, hbe, Bool.false_or]

theorem min?_congr_perm {xs ys : List Nat} (h : xs.Perm ys) : xs.min? = ys.min? := by
  cases hx : xs.min? with
  | none =>
    rw [List.min?_eq_none_iff] at hx
    subst hx
    symm
    rw [List.min?_eq_none_iff]
    exact h.symm.eq_nil
  | some m =>
    have hx' := List.min?_eq_some_iff'.mp hx
    symm
    rw [List.min?_eq_some_iff']
    exact ⟨h.subset hx'.1, fun b hb => hx'.2 b (h.symm.subset hb)⟩

theorem sorted_firstIdOf (l : List DimRow)
    (hs : List.Sorted (fun a b : DimRow => a.id ≤ b.id) l) (n : String) :
    firstIdOf l n = ((l.filter (fun r => r.name == n)).map (fun r => r.id)).min? := by
  induction l with
  | nil => rfl
  | cons r0 rest ih =>
    have h1 : ∀ b ∈ rest, r0.id ≤ b.id := (List.sorted_cons.mp hs).1
    have h2 := (List.sorted_cons.mp hs).2
    by_cases hname : r0.name = n
    · rw [firstIdOf_cons_pos r0 rest n hname]
      rw [List.filter_cons_of_pos (by simp [hname])]
      symm
      rw [List.map_cons, List.min?_eq_some_iff']
      refine ⟨List.mem_cons_self _ _, ?_⟩
      intro b hb
      rcases List.mem_cons.mp hb with rfl | hb'
      · exact le_refl _
      · rcases List.mem_map.mp hb' with ⟨r, hr, rfl⟩
        exact h1 r (List.mem_of_mem_filter hr)
    · rw [firstIdOf_cons_neg r0 rest n hname]
      rw [List.filter_cons_of_neg (by simp [hname])]
      exact ih h2

/-- The id-ordered list of rows whose name is one of the defaults: the
`SELECT ... WHERE name IN names ORDER BY id` result the scan walks. -/
def matchingOf (names : List String) (st : DimTableState) : List DimRow :=
  (st.rows.filter (fun r => names.contains r.name)).insertionSort (fun a b => a.id ≤ b.id)

theorem matchingOf_perm (names : List String) (st : DimTableState) :
    (matchingOf names st).Perm (st.rows.filter (fun r => names.contains r.name)) :=
  List.perm_insertionSort _ _

theorem mem_matchingOf (names : List String) (st : DimTableState) (x : DimRow) :
    x ∈ matchingOf names st ↔ x ∈ st.rows ∧ names.contains x.name = true :=
  (matchingOf_perm names st).mem_iff.trans List.mem_filter

theorem matchingOf_nodup (names : List String) (st : DimTableState)
    (hnodup : (st.rows.map (fun r => r.id)).Nodup) :
    ((matchingOf names st).map (fun r => r.id)).Nodup := by
  refine ((matchingOf_perm names st).map _).nodup_iff.mpr ?_
  exact List.Nodup.sublist ((List.filter_sublist _).map _) hnodup

theorem firstIdOf_matchingOf (names : List String) (st : DimTableState) (n : String)
    (hcn : names.contains n = true) :
    firstIdOf (matchingOf names st) n = primaryIdOf st.rows n := by
  rw [sorted_firstIdOf (matchingOf names st) (List.sorted_insertionSort _ _) n]
  unfold primaryIdOf
  apply min?_congr_perm
  apply List.Perm.map
  refine ((matchingOf_perm names st).filter _).trans ?_
  rw [List.filter_filter]
  apply List.Perm.of_eq
  apply List.filter_congr
  intro x _
  by_cases h : x.name = n
  · rw [h]
    simp only [hcn, Bool.and_true]
  · simp [h]

/-- The rows the insert phase appends, given the snapshot of existing names
and the next `AUTOINCREMENT` value. -/
def insertedRows (ex : List String) (i : Nat) : List String → List DimRow
  | [] => []
  | m :: rest =>
    if ex.contains m then insertedRows ex i rest
    else ⟨i, m, some "active"⟩ :: insertedRows ex (i + 1) rest

theorem insertMissing_rows (ex : List String) (ns : List String) :
    ∀ st : DimTableState,
    (insertMissing ex st ns).rows = st.rows ++ insertedRows ex st.next_id ns := by
  induction ns with
  | nil => intro st; simp [insertMissing, insertedRows]
  | cons m rest ih =>
    intro st
    unfold insertMissing insertedRows
    by_cases h : ex.contains m
    · rw [if_pos h, if_pos h, ih st]
    · rw [if_neg h, if_neg h, ih _]
      show (st.rows ++ [⟨st.next_id, m, some "active"⟩])
          ++ insertedRows ex (st.next_id + 1) rest = _
      rw [List.append_assoc]
      rfl

theorem insertMissing_refs (ex : List String) (ns : List String) :
    ∀ st : DimTableState, (insertMissing ex st ns).refs = st.refs := by
  induction ns with
  | nil => intro st; rfl
  | cons m rest ih =>
    intro st
    unfold insertMissing
    by_cases h : ex.contains m
    · rw [if_pos h]; exact ih _
    · rw [if_neg h]; exact ih _

theorem mem_insertedRows (ex : List String) (r : DimRow) : ∀ (ns : List String) (i : Nat),
    r ∈ insertedRows ex i ns →
    r.status = some "active" ∧ r.name ∈ ns ∧ ex.contains r.name = false := by
  intro ns
  induction ns with
  | nil => intro i h; cases h
  | cons m rest ih =>
    intro i hmem
    unfold insertedRows at hmem
    by_cases h : ex.contains m
    · rw [if_pos h] at hmem
      rcases ih i hmem with ⟨h1, h2, h3⟩
      exact ⟨h1, List.mem_cons_of_mem _ h2, h3⟩
    · rw [if_neg h] at hmem
      rcases List.mem_cons.mp hmem with rfl | hmem'
      · exact ⟨rfl, List.mem_cons_self _ _, Bool.eq_false_iff.mpr h⟩
      · rcases ih (i + 1) hmem' with ⟨h1, h2, h3⟩
        exact ⟨h1, List.mem_cons_of_mem _ h2, h3⟩

theorem insertedRows_filter (ex : List String) (n : String) : ∀ (ns : List String),
    ns.Nodup → ∀ i : Nat,
    ∃ j, (insertedRows ex i ns).filter (fun r => r.name == n)
      = if n ∈ ns ∧ ¬ ex.contains n = true then [⟨j, n, some "active"⟩] else [] := by
  intro ns
  induction ns with
  | nil =>
    intro _ i
    exact ⟨0, by simp [insertedRows]⟩
  | cons m rest ih =>
    intro hnd i
    have hmr : m ∉ rest := (List.nodup_cons.mp hnd).1
    have hndr : rest.Nodup := (List.nodup_cons.mp hnd).2
    unfold insertedRows
    by_cases hc : ex.contains m = true
    · rw [if_pos hc]
      rcases ih hndr i with ⟨j, hj⟩
      refine ⟨j, ?_⟩
      rw [hj]
      by_cases hnm : n = m
      · rw [if_neg (fun h => h.2 (hnm ▸ hc)), if_neg (fun h => h.2 (hnm ▸ hc))]
      · by_cases hcnd : n ∈ rest ∧ ¬ ex.contains n = true
        · rw [if_pos hcnd, if_pos ⟨List.mem_cons_of_mem _ hcnd.1, hcnd.2⟩]
        · rw [if_neg hcnd]
          rw [if_neg (fun h => hcnd ⟨(List.mem_cons.mp h.1).resolve_left hnm, h.2⟩)]
    · rw [if_neg hc]
      by_cases hnm : n = m
      · subst hnm
        refine ⟨i, ?_⟩
        rw [List.filter_cons_of_pos (by simp)]
        rcases ih hndr (i + 1) with ⟨j, hj⟩
        rw [hj]
        rw [if_neg (fun h => hmr h.1), if_pos ⟨List.mem_cons_self _ _, hc⟩]
      · rcases ih hndr (i + 1) with ⟨j, hj⟩
        refine ⟨j, ?_⟩
        rw [List.filter_cons_of_neg
          (by simp only [beq_iff_eq]; exact fun h => hnm h.symm), hj]
        by_cases hcnd : n ∈ rest ∧ ¬ ex.contains n = true
        · rw [if_pos hcnd, if_pos ⟨List.mem_cons_of_mem _ hcnd.1, hcnd.2⟩]
        · rw [if_neg hcnd]
          rw [if_neg (fun h => hcnd ⟨(List.mem_cons.mp h.1).resolve_left hnm, h.2⟩)]

theorem filter_filterMap_name (l : List DimRow) (f : DimRow → Option DimRow)
    (hf : ∀ r r', f r = some r' → r'.name = r.name) (n : String) :
    (l.filterMap f).filter (fun r => r.name == n)
      = (l.filter (fun r => r.name == n)).filterMap f := by
  induction l with
  | nil => rfl
  | cons a l ih =>
    cases hfa : f a with
    | none =>
      rw [List.filterMap_cons_none hfa]
      by_cases h : a.name = n
      · rw [List.filter_cons_of_pos (by simp [h]), List.filterMap_cons_none hfa, ih]
      · rw [List.filter_cons_of_neg (by simp [h]), ih]
    | some b =>
      have hbn : b.name = a.name := hf a b hfa
      rw [List.filterMap_cons_some hfa]
      by_cases h : a.name = n
      · rw [List.filter_cons_of_pos (by simp [hbn, h]), List.filter_cons_of_pos (by simp [h])]
        rw [List.filterMap_cons_some hfa, ih]
      · rw [List.filter_cons_of_neg (by simp [hbn, h]), List.filter_cons_of_neg (by simp [h]), ih]

theorem filterMap_congr_mem {α β : Type} (l : List α) (f g : α → Option β)
    (h : ∀ a ∈ l, f a = g a) : l.filterMap f = l.filterMap g := by
  induction l with
  | nil => rfl
  | cons a l ih =>
    have ha := h a (List.mem_cons_self _ _)
    have ih' := ih (fun x hx => h x (List.mem_cons_of_mem _ hx))
    cases hg : g a with
    | none => rw [List.filterMap_cons_none (ha.trans hg), List.filterMap_cons_none hg, ih']
    | some b => rw [List.filterMap_cons_some (ha.trans hg), List.filterMap_cons_some hg, ih']

theorem filterMap_dguard {α β : Type} (p : α → Prop) [DecidablePred p] (g : α → β)
    (l : List α) :
    l.filterMap (fun a => if p a then some (g a) else none)
      = (l.filter (fun a => decide (p a))).map g := by
  induction l with
  | nil => rfl
  | cons a l ih =>
    by_cases h : p a
    · rw [List.filterMap_cons_some (by rw [if_pos h])]
      rw [List.filter_cons_of_pos (by simp [h]), List.map_cons, ih]
    · rw [List.filterMap_cons_none (by rw [if_neg h])]
      rw [List.filter_cons_of_neg (by simp [h]), ih]

theorem filter_eq_id_length (l : List DimRow) :
    ((l.map (fun r => r.id)).Nodup) → ∀ p : Nat, p ∈ l.map (fun r => r.id) →
    (l.filter (fun r => p == r.id)).length = 1 := by
  induction l with
  | nil => intro _ p hp; cases hp
  | cons a l ih =>
    intro hnodup p hp
    have hhd : a.id ∉ l.map (fun r => r.id) := (List.nodup_cons.mp (by simpa using hnodup)).1
    have hnr : (l.map (fun r => r.id)).Nodup := (List.nodup_cons.mp (by simpa using hnodup)).2
    rw [List.map_cons] at hp
    rcases List.mem_cons.mp hp with rfl | hp'
    · rw [List.filter_cons_of_pos (by simp)]
      have : l.filter (fun r => a.id == r.id) = [] := by
        rw [List.filter_eq_nil_iff]
        intro r hr
        simp only [beq_iff_eq]
        intro he
        exact hhd (he ▸ List.mem_map_of_mem _ hr)
      rw [this]
      rfl
    · have hne : ¬ a.id = p := fun h => hhd (h ▸ hp')
      rw [List.filter_cons_of_neg (by simp only [beq_iff_eq]; exact fun h => hne h.symm)]
      exact ih hnr p hp'

theorem primaryIdOf_exists (rows : List DimRow) (r : DimRow) (hr : r ∈ rows) :
    ∃ p, primaryIdOf rows r.name = some p := by
  cases hq : primaryIdOf rows r.name with
  | some p => exact ⟨p, rfl⟩
  | none =>
    exfalso
    unfold primaryIdOf at hq
    rw [List.min?_eq_none_iff, List.map_eq_nil_iff, List.filter_eq_nil_iff] at hq
    exact hq r hr (by simp)

theorem primaryIdOf_spec (rows : List DimRow) (n : String) (p : Nat)
    (hp : primaryIdOf rows n = some p) :
    (∃ r ∈ rows, r.name = n ∧ r.id = p) ∧ ∀ r ∈ rows, r.name = n → p ≤ r.id := by
  unfold primaryIdOf at hp
  have hiff := List.min?_eq_some_iff'.mp hp
  constructor
  · rcases List.mem_map.mp hiff.1 with ⟨r, hr, hre⟩
    have hmem := List.mem_filter.mp hr
    exact ⟨r, hmem.1, by simpa using hmem.2, hre⟩
  · intro r hr hrn
    exact hiff.2 r.id (List.mem_map_of_mem _ (List.mem_filter.mpr ⟨hr, by simp [hrn]⟩))

theorem scanRowMap_matchingOf (names : List String) (st : DimTableState)
    (hnodup : (st.rows.map (fun r => r.id)).Nodup) (r : DimRow) (hr : r ∈ st.rows) :
    scanRowMap [] (matchingOf names st) r
      = if names.contains r.name = true then
          (if primaryIdOf st.rows r.name = some r.id then some (reactivate r) else none)
        else some r := by
  by_cases hcn : names.contains r.name = true
  · rw [if_pos hcn]
    have hrm : r ∈ matchingOf names st := (mem_matchingOf names st r).mpr ⟨hr, hcn⟩
    have hmn := matchingOf_nodup names st hnodup
    have hfid := firstIdOf_matchingOf names st r.name hcn
    rcases primaryIdOf_exists st.rows r hr with ⟨p, hp⟩
    by_cases hpr : p = r.id
    · rw [hp, if_pos (by rw [hpr])]
      have hfn : (pairsOfScan [] (matchingOf names st)).find? (fun q => q.1 == r.id) = none :=
        pairsOfScan_find_primary (matchingOf names st) [] r hrm hmn rfl
          (by rw [hfid, hp, hpr])
      have h1 : (pairsOfScan [] (matchingOf names st)).any (fun q => q.1 == r.id) = false := by
        rw [Bool.eq_false_iff]
        intro hany
        rcases List.any_eq_true.mp hany with ⟨q, hq, hqe⟩
        exact List.find?_eq_none.mp hfn q hq hqe
      have h2 : (scanKeptIds [] (matchingOf names st)).any (fun k => k == r.id) = true :=
        List.any_eq_true.mpr ⟨r.id,
          scanKeptIds_mem_primary (matchingOf names st) [] r hrm hmn rfl
            (by rw [hfid, hp, hpr]),
          by simp⟩
      unfold scanRowMap
      rw [h1, h2]
      rfl
    · rw [hp, if_neg (fun h => hpr (Option.some.inj h))]
      have hfd := pairsOfScan_find_dup (matchingOf names st) [] r p hrm hmn rfl
        (by rw [hfid, hp]) hpr
      have h1 : (pairsOfScan [] (matchingOf names st)).any (fun q => q.1 == r.id) = true :=
        List.any_eq_true.mpr ⟨(r.id, p), List.mem_of_find?_eq_some hfd, by simp⟩
      unfold scanRowMap
      rw [h1]
      rfl
  · rw [if_neg hcn]
    have hnid : r.id ∉ (matchingOf names st).map (fun x => x.id) := by
      intro hid
      rcases List.mem_map.mp hid with ⟨x, hx, hxe⟩
      rcases (mem_matchingOf names st x).mp hx with ⟨hxs, hxc⟩
      have hxr : x = r := row_id_injective hnodup hxs hr hxe
      exact hcn (hxr ▸ hxc)
    unfold scanRowMap
    rw [pairsOfScan_any_eq_false _ _ _ hnid, scanKeptIds_any_eq_false _ _ _ hnid]
    rfl

theorem redirectPairs_matchingOf (names : List String) (st : DimTableState)
    (hnodup : (st.rows.map (fun r => r.id)).Nodup) (d : Nat) :
    redirectPairs (pairsOfScan [] (matchingOf names st)) d = redirectOf names st.rows d := by
  unfold redirectOf
  cases hfd : st.rows.find? (fun r => r.id == d) with
  | none =>
    have hnid : d ∉ (matchingOf names st).map (fun x => x.id) := by
      intro hid
      rcases List.mem_map.mp hid with ⟨x, hx, hxe⟩
      have hxs := ((mem_matchingOf names st x).mp hx).1
      exact List.find?_eq_none.mp hfd x hxs (by simp [hxe])
    unfold redirectPairs
    rw [pairsOfScan_find_none_of_not_mem _ _ _ hnid]
  | some r =>
    have hr : r ∈ st.rows := List.mem_of_find?_eq_some hfd
    have hrd : r.id = d := by
      have hpr := List.find?_some hfd
      simpa using hpr
    show redirectPairs (pairsOfScan [] (matchingOf names st)) d
      = if names.contains r.name = true then (primaryIdOf st.rows r.name).getD d else d
    by_cases hcn : names.contains r.name = true
    · rw [if_pos hcn]
      have hrm : r ∈ matchingOf names st := (mem_matchingOf names st r).mpr ⟨hr, hcn⟩
      have hmn := matchingOf_nodup names st hnodup
      have hfid := firstIdOf_matchingOf names st r.name hcn
      rcases primaryIdOf_exists st.rows r hr with ⟨p, hp⟩
      rw [hp]
      by_cases hpe : p = r.id
      · have hfn := pairsOfScan_find_primary (matchingOf names st) [] r hrm hmn rfl
          (by rw [hfid, hp, hpe])
        unfold redirectPairs
        rw [hrd] at hfn
        rw [hfn]
        show d = (some p).getD d
        rw [Option.getD_some, hpe, hrd]
      · have hfd2 := pairsOfScan_find_dup (matchingOf names st) [] r p hrm hmn rfl
          (by rw [hfid, hp]) hpe
        unfold redirectPairs
        rw [hrd] at hfd2
        rw [hfd2]
        rfl
    · rw [if_neg hcn]
      have hnid : d ∉ (matchingOf names st).map (fun x => x.id) := by
        intro hid
        rcases List.mem_map.mp hid with ⟨x, hx, hxe⟩
        rcases (mem_matchingOf names st x).mp hx with ⟨hxs, hxc⟩
        have hxr : x = r := row_id_injective hnodup hxs hr (by rw [hxe, hrd])
        exact hcn (hxr ▸ hxc)
      unfold redirectPairs
      rw [pairsOfScan_find_none_of_not_mem _ _ _ hnid]

theorem ensure_defaults_table_spec (names : List String) (hndn : names.Nodup)
    (st : DimTableState) (hnodup : (st.rows.map (fun r => r.id)).Nodup)
    (n : String) (hn : n ∈ names) :
    (((ensure_defaults_table names st).rows.filter (fun r => r.name == n)).length = 1)
    ∧ (∀ r ∈ (ensure_defaults_table names st).rows, r.name = n → r.status = some "active")
    ∧ (∀ r ∈ (ensure_defaults_table names st).rows, r.name = n →
        ∀ r0 ∈ st.rows, r0.name = n →
          ∃ r1 ∈ st.rows, r1.name = n ∧ r = reactivate r1
            ∧ ∀ r2 ∈ st.rows, r2.name = n → r1.id ≤ r2.id)
    ∧ (ensure_defaults_table names st).refs
        = st.refs.map (fun col => col.map (fun e =>
            (e.1, e.2.map (redirectOf names st.rows)))) := by
  have hrfl : ensure_defaults_table names st
      = insertMissing
          (((dedupScan [] st (matchingOf names st)).rows.filter
              (fun r => names.contains r.name)).map (fun r => r.name))
          (dedupScan [] st (matchingOf names st)) names := rfl
  rw [hrfl]
  set st2 := dedupScan [] st (matchingOf names st) with hst2
  set ex := (st2.rows.filter (fun r => names.contains r.name)).map (fun r => r.name) with hex
  have hmn := matchingOf_nodup names st hnodup
  have hrows2 : st2.rows = st.rows.filterMap (scanRowMap [] (matchingOf names st)) := by
    rw [hst2]
    exact dedupScan_rows _ [] st hmn
  have hrowsIns : (insertMissing ex st2 names).rows
      = st2.rows ++ insertedRows ex st2.next_id names := insertMissing_rows ex names st2
  have hrefsIns : (insertMissing ex st2 names).refs = st2.refs := insertMissing_refs ex names st2
  have hrefs2 : st2.refs = applyPairs (pairsOfScan [] (matchingOf names st)) st.refs := by
    rw [hst2]
    exact dedupScan_refs _ [] st
  have hfstnodup : ((pairsOfScan [] (matchingOf names st)).map Prod.fst).Nodup :=
    List.Nodup.sublist (pairsOfScan_fst_sublist _ _) hmn
  have hcf : ChainFree (pairsOfScan [] (matchingOf names st)) :=
    pairsOfScan_chainFree _ [] hmn (fun e he => absurd he (List.not_mem_nil e))
  have hrefs_final : (insertMissing ex st2 names).refs
      = st.refs.map (fun col => col.map (fun e =>
          (e.1, e.2.map (redirectOf names st.rows)))) := by
    rw [hrefsIns, hrefs2, applyPairs_map _ hfstnodup hcf st.refs]
    rw [show redirectPairs (pairsOfScan [] (matchingOf names st)) = redirectOf names st.rows
      from funext (redirectPairs_matchingOf names st hnodup)]
  have hcont : names.contains n = true := List.elem_iff.mpr hn
  have hname_pres : ∀ r r', scanRowMap [] (matchingOf names st) r = some r'
      → r'.name = r.name := by
    intro r r' h
    unfold scanRowMap at h
    by_cases h1 : (pairsOfScan [] (matchingOf names st)).any (fun p => p.1 == r.id) = true
    · rw [if_pos h1] at h
      cases h
    · rw [if_neg h1] at h
      by_cases h2 : (scanKeptIds [] (matchingOf names st)).any (fun k => k == r.id) = true
      · rw [if_pos h2] at h
        rw [← Option.some.inj h, reactivate_name]
      · rw [if_neg h2] at h
        rw [← Option.some.inj h]
  have hAn : st2.rows.filter (fun r => r.name == n)
      = (st.rows.filter (fun r => r.name == n)).filterMap
          (scanRowMap [] (matchingOf names st)) := by
    rw [hrows2]
    exact filter_filterMap_name st.rows _ hname_pres n
  have hAn2 : (st.rows.filter (fun r => r.name == n)).filterMap
        (scanRowMap [] (matchingOf names st))
      = (st.rows.filter (fun r => r.name == n)).filterMap
          (fun r => if primaryIdOf st.rows n = some r.id
            then some (reactivate r) else none) := by
    apply filterMap_congr_mem
    intro r hrmem
    have hrs := List.mem_filter.mp hrmem
    have hrn : r.name = n := by simpa using hrs.2
    rw [scanRowMap_matchingOf names st hnodup r hrs.1, hrn, if_pos hcont]
  cases hq : primaryIdOf st.rows n with
  | some p =>
    obtain ⟨⟨rmin, hrmem, hrname, hrid⟩, hmin⟩ := primaryIdOf_spec st.rows n p hq
    have hA : st2.rows.filter (fun r => r.name == n)
        = ((st.rows.filter (fun r => r.name == n)).filter
            (fun r => decide (primaryIdOf st.rows n = some r.id))).map reactivate := by
      rw [hAn, hAn2, filterMap_dguard]
    have hfilter2 : (st.rows.filter (fun r => r.name == n)).filter
          (fun r => decide (primaryIdOf st.rows n = some r.id))
        = st.rows.filter (fun r => p == r.id) := by
      rw [List.filter_filter]
      apply List.filter_congr
      intro r hrs
      by_cases hid : p = r.id
      · have hreq : r = rmin := row_id_injective hnodup hrs hrmem (by rw [← hid, hrid])
        have hrn : r.name = n := by rw [hreq]; exact hrname
        simp [hq, hid, hrn]
      · simp [hq, hid]
    have hpmem : p ∈ st.rows.map (fun r => r.id) := by
      rw [← hrid]
      exact List.mem_map_of_mem _ hrmem
    have hsurv : reactivate rmin ∈ st2.rows := by
      rw [hrows2]
      apply List.mem_filterMap.mpr
      refine ⟨rmin, hrmem, ?_⟩
      rw [scanRowMap_matchingOf names st hnodup rmin hrmem, hrname, if_pos hcont, hq,
        if_pos (by rw [hrid])]
    have hexn : ex.contains n = true := by
      apply List.elem_iff.mpr
      rw [hex]
      apply List.mem_map.mpr
      refine ⟨reactivate rmin, List.mem_filter.mpr ⟨hsurv, ?_⟩, ?_⟩
      · rw [reactivate_name, hrname]
        exact hcont
      · rw [reactivate_name, hrname]
    obtain ⟨j, hB⟩ := insertedRows_filter ex n names hndn st2.next_id
    have hBnil : (insertedRows ex st2.next_id names).filter (fun r => r.name == n) = [] := by
      rw [hB, if_neg (fun h => h.2 hexn)]
    refine ⟨?_, ?_, ?_, hrefs_final⟩
    · rw [hrowsIns, List.filter_append, hBnil, List.append_nil, hA, hfilter2,
        List.length_map]
      exact filter_eq_id_length st.rows hnodup p hpmem
    · intro r hrm hrn
      rw [hrowsIns] at hrm
      rcases List.mem_append.mp hrm with h2 | h2
      · have hmemA : r ∈ st2.rows.filter (fun x => x.name == n) :=
          List.mem_filter.mpr ⟨h2, by simp [hrn]⟩
        rw [hA, hfilter2] at hmemA
        rcases List.mem_map.mp hmemA with ⟨r1, _, hre⟩
        rw [← hre, reactivate_status]
      · exact (mem_insertedRows ex r names st2.next_id h2).1
    · intro r hrm hrn r0 hr0 hr0n
      rw [hrowsIns] at hrm
      rcases List.mem_append.mp hrm with h2 | h2
      · have hmemA : r ∈ st2.rows.filter (fun x => x.name == n) :=
          List.mem_filter.mpr ⟨h2, by simp [hrn]⟩
        rw [hA, hfilter2] at hmemA
        rcases List.mem_map.mp hmemA with ⟨r1, hr1f, hre⟩
        have hr1 := List.mem_filter.mp hr1f
        have hr1id : r1.id = p := by
          have hb := hr1.2
          simp only [beq_iff_eq] at hb
          exact hb.symm
        have hr1eq : r1 = rmin := row_id_injective hnodup hr1.1 hrmem (by rw [hr1id, ← hrid])
        have hr1n : r1.name = n := by rw [hr1eq]; exact hrname
        refine ⟨r1, hr1.1, hr1n, hre.symm, ?_⟩
        intro r2 hr2 hr2n
        rw [hr1id]
        exact hmin r2 hr2 hr2n
      · exfalso
        have hcontr := (mem_insertedRows ex r names st2.next_id h2).2.2
        rw [hrn] at hcontr
        rw [hcontr] at hexn
        cases hexn
  | none =>
    have hempty : st.rows.filter (fun r => r.name == n) = [] := by
      unfold primaryIdOf at hq
      rw [List.min?_eq_none_iff, List.map_eq_nil_iff] at hq
      exact hq
    have hA0 : st2.rows.filter (fun r => r.name == n) = [] := by
      rw [hAn, hempty]
      rfl
    have hnoex : ¬ ex.contains n = true := by
      intro hcne
      have hnmem : n ∈ ex := List.elem_iff.mp hcne
      rw [hex] at hnmem
      rcases List.mem_map.mp hnmem with ⟨r', hr'f, hr'n⟩
      have hr'2 : r' ∈ st2.rows := List.mem_of_mem_filter hr'f
      have hr'A : r' ∈ st2.rows.filter (fun r => r.name == n) :=
        List.mem_filter.mpr ⟨hr'2, by simp [hr'n]⟩
      rw [hA0] at hr'A
      cases hr'A
    obtain ⟨j, hB⟩ := insertedRows_filter ex n names hndn st2.next_id
    have hBone : (insertedRows ex st2.next_id names).filter (fun r => r.name == n)
        = [⟨j, n, some "active"⟩] := by
      rw [hB, if_pos ⟨hn, hnoex⟩]
    refine ⟨?_, ?_, ?_, hrefs_final⟩
    · rw [hrowsIns, List.filter_append, hA0, hBone, List.nil_append]
      rfl
    · intro r hrm hrn
      rw [hrowsIns] at hrm
      rcases List.mem_append.mp hrm with h2 | h2
      · have hmemA : r ∈ st2.rows.filter (fun x => x.name == n) :=
          List.mem_filter.mpr ⟨h2, by simp [hrn]⟩
        rw [hA0] at hmemA
        cases hmemA
      · exact (mem_insertedRows ex r names st2.next_id h2).1
    · intro r hrm hrn r0 hr0 hr0n
      exfalso
      have hr0A : r0 ∈ st.rows.filter (fun r => r.name == n) :=
        List.mem_filter.mpr ⟨hr0, by simp [hr0n]⟩
      rw [hempty] at hr0A
      cases hr0A

/-- C1 counterexample.  The pass deduplicates only the *default seed names*:
`dim_category` has no unique constraint on `name`, and two rows both named
`X` (not a default) survive `_ensure_master_defaults` untouched — two rows
with the same name persist, against the claim's "for every dimension table
and every name, at most one row with that name persists". -/
theorem c1_counterexample_nondefault_duplicates_survive :
    ¬ (((ensure_defaults_table ["工资收入", "生活支出", "投资转出", "投资回流"]
          ⟨[⟨1, "X", some "active"⟩, ⟨2, "X", some "active"⟩], [], 3⟩).rows.filter
        (fun r => r.name == "X")).length ≤ 1) := by
  decide

/-- C1 (amended): the dedup/seed pass `_ensure_master_defaults` guarantees
uniqueness for *default* names only.  For every `MASTER_DEFAULTS` entry and
every default name `n` of that entry, after the pass on a table whose row
ids are distinct: exactly one row named `n` persists; every persisting row
named `n` has status `active`; if rows named `n` pre-existed, the survivor
is the reactivated pre-existing row of lowest id; and every mapped
foreign-key value is rewritten by `redirectOf` — a value that pointed at a
deleted duplicate now holds the primary's id, every other value is
unchanged. -/
theorem c1_default_names_dedup_primary_redirect
    (entry : String × List String) (hentry : entry ∈ MASTER_DEFAULTS)
    (st : DimTableState) (hnodup : (st.rows.map (fun r => r.id)).Nodup)
    (n : String) (hn : n ∈ entry.2) :
    (((ensure_defaults_table entry.2 st).rows.filter (fun r => r.name == n)).length = 1)
    ∧ (∀ r ∈ (ensure_defaults_table entry.2 st).rows, r.name = n → r.status = some "active")
    ∧ (∀ r ∈ (ensure_defaults_table entry.2 st).rows, r.name = n →
        ∀ r0 ∈ st.rows, r0.name = n →
          ∃ r1 ∈ st.rows, r1.name = n ∧ r = reactivate r1
            ∧ ∀ r2 ∈ st.rows, r2.name = n → r1.id ≤ r2.id)
    ∧ (ensure_defaults_table entry.2 st).refs
        = st.refs.map (fun col => col.map (fun e =>
            (e.1, e.2.map (redirectOf entry.2 st.rows)))) := by
  have hndn : entry.2.Nodup := by
    have h := hentry
    simp only [MASTER_DEFAULTS, List.mem_cons, List.not_mem_nil, or_false] at h
    rcases h with h | h | h | h | h | h | h | h <;> (rw [h]; decide)
  exact ensure_defaults_table_spec entry.2 hndn st hnodup n hn

/-- State for the C1 witness: `dim_category` with a duplicate default name
`工资收入` (ids 2 and 4, the primary inactive), a stray non-default row, a
`NULL`-status default row, and one mapped reference column. -/
def c1wState : DimTableState :=
  ⟨[⟨1, "X", some "active"⟩, ⟨2, "工资收入", some "inactive"⟩,
    ⟨4, "工资收入", some "active"⟩, ⟨3, "生活支出", none⟩],
   [[(10, some 4), (11, some 7), (12, none)]], 5⟩

theorem c1_default_names_dedup_primary_redirect_witness :
    (("dim_category", ["工资收入", "生活支出", "投资转出", "投资回流"]) ∈ MASTER_DEFAULTS)
    ∧ ((c1wState.rows.map (fun r => r.id)).Nodup)
    ∧ ("工资收入" ∈ ["工资收入", "生活支出", "投资转出", "投资回流"])
    ∧ ((((ensure_defaults_table ["工资收入", "生活支出", "投资转出", "投资回流"]
            c1wState).rows.filter (fun r => r.name == "工资收入")).length = 1)
      ∧ (∀ r ∈ (ensure_defaults_table ["工资收入", "生活支出", "投资转出", "投资回流"]
            c1wState).rows, r.name = "工资收入" → r.status = some "active")
      ∧ (∀ r ∈ (ensure_defaults_table ["工资收入", "生活支出", "投资转出", "投资回流"]
            c1wState).rows, r.name = "工资收入" →
          ∀ r0 ∈ c1wState.rows, r0.name = "工资收入" →
            ∃ r1 ∈ c1wState.rows, r1.name = "工资收入" ∧ r = reactivate r1
              ∧ ∀ r2 ∈ c1wState.rows, r2.name = "工资收入" → r1.id ≤ r2.id)
      ∧ (ensure_defaults_table ["工资收入", "生活支出", "投资转出", "投资回流"]
            c1wState).refs
          = c1wState.refs.map (fun col => col.map (fun e =>
              (e.1, e.2.map (redirectOf ["工资收入", "生活支出", "投资转出", "投资回流"]
                c1wState.rows))))) :=
  ⟨by decide, by decide, by decide,
    c1_default_names_dedup_primary_redirect
      ("dim_category", ["工资收入", "生活支出", "投资转出", "投资回流"]) (by decide)
      c1wState (by decide) "工资收入" (by decide)⟩

end PFIS
